import Mathlib

/-!
Verification of the WriteBase Notion-import pipeline (Python sources:
notion_to_airtable.py, full_import.py, import_to_airtable.py).  Python
strings are shallowly embedded as lists of characters; Python dicts that
preserve insertion order are embedded as association lists.  Every regex
used by the sources is small enough that its matching behaviour (including
greediness and backtracking) is reproduced exactly by hand-written scanners.
-/

set_option maxHeartbeats 1000000

namespace NotionPipeline

/-- A Python string, as a list of characters. -/
abbrev Str := List Char

/-- Python whitespace characters recognised by str.strip() and the regex class. -/
def pyIsSpace (c : Char) : Bool :=
  c = ' ' || c = '\t' || c = '\n' || c = '\r' || c = '\x0b' || c = '\x0c'

/-- Python str.strip(): remove leading and trailing whitespace. -/
def pyStrip (s : Str) : Str :=
  ((s.dropWhile pyIsSpace).reverse.dropWhile pyIsSpace).reverse

/-- Python str.strip(c) for a single character: remove all leading and trailing copies of c. -/
def stripAll (c : Char) (s : Str) : Str :=
  ((s.dropWhile (· = c)).reverse.dropWhile (· = c)).reverse

/-- Python str.lower() (sources only feed ASCII data through it). -/
def pyLower (s : Str) : Str := s.map Char.toLower

/-- Python s.split(sep) for a one-character separator: keeps empty fields. -/
def splitOn (sep : Char) : Str → List Str
  | [] => [[]]
  | c :: rest =>
    let r := splitOn sep rest
    if c = sep then [] :: r
    else (c :: r.headD []) :: r.tail

/-- Python sep.join for a one-character separator. -/
def joinWith (sep : Char) : List Str → Str
  | [] => []
  | [s] => s
  | s :: t :: rest => s ++ sep :: joinWith sep (t :: rest)

/-- Python ", ".join. -/
def joinCommaSpace : List Str → Str
  | [] => []
  | [s] => s
  | s :: t :: rest => s ++ ',' :: ' ' :: joinCommaSpace (t :: rest)

/-- Python s.rsplit(sep, 1)[0]: everything before the last sep; the whole string when absent. -/
def beforeLast (sep : Char) (s : Str) : Str :=
  if sep ∈ s then (((s.reverse).dropWhile (· ≠ sep)).drop 1).reverse else s

/-- Python s.split(sep)[-1]: everything after the last sep; the whole string when absent. -/
def afterLast (sep : Char) (s : Str) : Str :=
  ((s.reverse).takeWhile (· ≠ sep)).reverse

/-- Python s.replace("%20", " ") (left-to-right, non-overlapping). -/
def replacePercent20 : Str → Str
  | [] => []
  | '%' :: '2' :: '0' :: rest => ' ' :: replacePercent20 rest
  | c :: rest => c :: replacePercent20 rest

/-- Python `needle in hay` for strings: substring containment. -/
def isSubstring (needle : Str) : Str → Bool
  | [] => needle.isEmpty
  | c :: t => needle.isPrefixOf (c :: t) || isSubstring needle t

-- ============================================================
-- full_import.py, replace_image_references and its inner helpers
-- ============================================================

/-- Upload mapping image_name -> (rec_id, att_id), in insertion order. -/
abbrev AssetMap := List (Str × (Str × Str))

/-- full_import.py find_asset_match: the ordered fallback chain actually in the
code: exact, case-insensitive, basename exact, basename case-insensitive, and
finally substring containment between the lowercased extension-stripped names. -/
def find_asset_match (m : AssetMap) (filename0 : Str) : Option (Str × Str) :=
  match m.find? (fun e => e.1 = pyStrip filename0) with
  | some e => some e.2
  | none =>
  match m.find? (fun e => pyLower e.1 = pyLower (pyStrip filename0)) with
  | some e => some e.2
  | none =>
  match m.find? (fun e => e.1 = afterLast '/' (pyStrip filename0)) with
  | some e => some e.2
  | none =>
  match m.find? (fun e => pyLower e.1 = pyLower (afterLast '/' (pyStrip filename0))) with
  | some e => some e.2
  | none =>
  match m.find? (fun e =>
      isSubstring (pyLower (beforeLast '.' (pyStrip filename0)))
        (pyLower (beforeLast '.' e.1)) ||
      isSubstring (pyLower (beforeLast '.' e.1))
        (pyLower (beforeLast '.' (pyStrip filename0)))) with
  | some e => some e.2
  | none => none

/-- The five image extensions used by full_import.py. -/
def imageExts : List Str :=
  [['p','n','g'], ['j','p','g'], ['j','p','e','g'], ['g','i','f'], ['w','e','b','p']]

/-- Python alt_text.endswith(('.png', '.jpg', '.jpeg', '.gif', '.webp')), case sensitive. -/
def endsWithImageExt (s : Str) : Bool :=
  imageExts.any fun e => ('.' :: e).isSuffixOf s

/-- The filename taken from one double-bracket group (the part before a pipe). -/
def obsFilename (g : Str) : Str :=
  if '|' ∈ g then (splitOn '|' g).headD [] else g

/-- full_import.py replace_obsidian: replacement callback for one match of the
double-bracket pattern, g being the captured group (the text between the brackets). -/
def replace_obsidian (m : AssetMap) (g : Str) : Str :=
  match find_asset_match m (obsFilename g) with
  | some (rid, aid) =>
    if rid ≠ [] ∧ aid ≠ [] then
      '!' :: '[' :: (beforeLast '.' (obsFilename g) ++
        ']' :: '(' :: 'a' :: 's' :: 's' :: 'e' :: 't' :: ':' :: (rid ++ ':' :: aid ++ [')']))
    else '!' :: '[' :: '[' :: (g ++ [']', ']'])
  | none => '!' :: '[' :: '[' :: (g ++ [']', ']'])

/-- full_import.py replace_markdown: replacement callback for one match of the
bracketed-path pattern, with the two captured groups (alt text and path). -/
def replace_markdown (m : AssetMap) (alt path : Str) : Str :=
  match find_asset_match m (replacePercent20 (afterLast '/' path)) with
  | some (rid, aid) =>
    if rid ≠ [] ∧ aid ≠ [] then
      '!' :: '[' ::
        ((if alt ≠ [] ∧ ¬ endsWithImageExt alt then alt
          else beforeLast '.' (replacePercent20 (afterLast '/' path))) ++
        ']' :: '(' :: 'a' :: 's' :: 's' :: 'e' :: 't' :: ':' :: (rid ++ ':' :: aid ++ [')']))
    else '!' :: '[' :: (alt ++ ']' :: '(' :: (path ++ [')']))
  | none => '!' :: '[' :: (alt ++ ']' :: '(' :: (path ++ [')']))

/-- After "![[", the double-bracket regex needs a non-empty greedy run of
non-bracket characters followed by two closing brackets. -/
def obsAfterBrackets (t : Str) : Option (Str × Str) :=
  if 2 ≤ (t.dropWhile (· ≠ ']')).length ∧
      (t.dropWhile (· ≠ ']')).headD ' ' = ']' ∧
      ((t.dropWhile (· ≠ ']')).drop 1).headD ' ' = ']' ∧
      t.takeWhile (· ≠ ']') ≠ [] then
    some (t.takeWhile (· ≠ ']'), (t.dropWhile (· ≠ ']')).drop 2)
  else none

/-- One attempted match of the double-bracket regex at the head of the input:
"![[" then a non-empty greedy run of non-bracket characters then "]]".
Returns the captured group and the remainder after the match. -/
def try_obsidian : Str → Option (Str × Str)
  | c1 :: c2 :: c3 :: t =>
    if c1 = '!' ∧ c2 = '[' ∧ c3 = '[' then obsAfterBrackets t else none
  | _ => none

/-- The path filter of the bracketed-path regex: ends with dot plus one of the
five extensions (case-insensitively, with a non-empty part before the dot). -/
def hasValidImageExt (q : Str) : Bool :=
  imageExts.any fun e => ('.' :: e).isSuffixOf (pyLower q) && decide (e.length + 1 < q.length)

/-- The negative lookahead of the bracketed-path regex (case-insensitive). -/
def startsWithAssetColon (q : Str) : Bool :=
  ['a','s','s','e','t',':'].isPrefixOf (pyLower q)

/-- Full path condition of the import-phase bracketed-path regex. -/
def md_path_ok (q : Str) : Bool := hasValidImageExt q && !startsWithAssetColon q

/-- After "](", the import-phase regex needs a greedy non-parenthesis run
passing the path filter, closed by a parenthesis. -/
def mdAfterParen (alt r2 : Str) : Option (Str × Str × Str) :=
  if 1 ≤ (r2.dropWhile (· ≠ ')')).length ∧
      (r2.dropWhile (· ≠ ')')).headD ' ' = ')' ∧
      md_path_ok (r2.takeWhile (· ≠ ')')) then
    some (alt, r2.takeWhile (· ≠ ')'), (r2.dropWhile (· ≠ ')')).drop 1)
  else none

/-- After "![", the import-phase regex needs a greedy non-bracket run (the
alt text) followed by "](", then the path part. -/
def mdAfterBracket (t : Str) : Option (Str × Str × Str) :=
  if 2 ≤ (t.dropWhile (· ≠ ']')).length ∧
      (t.dropWhile (· ≠ ']')).headD ' ' = ']' ∧
      ((t.dropWhile (· ≠ ']')).drop 1).headD ' ' = '(' then
    mdAfterParen (t.takeWhile (· ≠ ']')) ((t.dropWhile (· ≠ ']')).drop 2)
  else none

/-- One attempted match of the import-phase bracketed-path regex at the head of
the input: "![" alt "](" path ")" with the path filtered by md_path_ok.
Returns alt, path, and the remainder after the match. -/
def try_markdown : Str → Option (Str × Str × Str)
  | c1 :: c2 :: t =>
    if c1 = '!' ∧ c2 = '[' then mdAfterBracket t else none
  | _ => none

/-- re.sub scan for the double-bracket pattern: leftmost match, replace, resume
after the match; fuel bounds the recursion and any fuel at least the length of
the input reproduces the unbounded scan. -/
def sub_obsidian_go (m : AssetMap) : Nat → Str → Str
  | 0, l => l
  | _ + 1, [] => []
  | fuel + 1, c :: rest =>
    match try_obsidian (c :: rest) with
    | some (g, r) => replace_obsidian m g ++ sub_obsidian_go m fuel r
    | none => c :: sub_obsidian_go m fuel rest

/-- re.sub scan for the bracketed-path pattern. -/
def sub_markdown_go (m : AssetMap) : Nat → Str → Str
  | 0, l => l
  | _ + 1, [] => []
  | fuel + 1, c :: rest =>
    match try_markdown (c :: rest) with
    | some (a, q, r) => replace_markdown m a q ++ sub_markdown_go m fuel r
    | none => c :: sub_markdown_go m fuel rest

/-- full_import.py replace_image_references: first the double-bracket pass,
then the bracketed-path pass on its output. -/
def replace_image_references (content : Str) (m : AssetMap) : Str :=
  sub_markdown_go m (sub_obsidian_go m content.length content).length
    (sub_obsidian_go m content.length content)

-- ============================================================
-- notion_to_airtable.py, export-side parsing
-- ============================================================

/-- Lowercase hex digit, the character class of the identifier regex. -/
def isHexDigitLower (c : Char) : Bool :=
  ('a' ≤ c && c ≤ 'f') || ('0' ≤ c && c ≤ '9')

/-- Strip one trailing newline: the regex dollar anchor also matches just
before a final newline. -/
def dropTrailingNewline (f : Str) : Str :=
  match f.reverse with
  | c :: r => if c = '\n' then r.reverse else f
  | [] => f

/-- notion_to_airtable.py extract_notion_id: re.search of thirty-two lowercase
hex digits captured immediately before ".md" at the end of the filename. -/
def extract_notion_id (filename : Str) : Option Str :=
  let f := dropTrailingNewline filename
  if ['.','m','d'].isSuffixOf f then
    let core := f.take (f.length - 3)
    let idpart := core.drop (core.length - 32)
    if 32 ≤ core.length ∧ idpart.all isHexDigitLower then some idpart else none
  else none

/-- pathlib Path.stem on a bare filename: drop the last extension; a dot at
position zero or a trailing dot is not an extension separator. -/
def pyStem (name : Str) : Str :=
  if '.' ∈ name then
    let revAfter := (name.reverse).takeWhile (· ≠ '.')
    let i := name.length - revAfter.length - 1
    if 0 < i ∧ i < name.length - 1 then name.take i else name
  else name

/-- ASCII letter, from the key character class of the metadata regex. -/
def isAsciiLetter (c : Char) : Bool := ('A' ≤ c && c ≤ 'Z') || ('a' ≤ c && c ≤ 'z')

/-- Character class of the metadata key: ASCII letters and whitespace. -/
def isKeyChar (c : Char) : Bool := isAsciiLetter c || pyIsSpace c

/-- re.match of the metadata line regex (greedy run of key characters, a colon,
then a non-empty remainder) against an already stripped line; returns the key
run and the raw remainder after the colon. -/
def kv_parse (line : Str) : Option (Str × Str) :=
  match line.dropWhile isKeyChar with
  | c :: rest =>
    if c = ':' ∧ line.takeWhile isKeyChar ≠ [] ∧ rest ≠ [] then
      some (line.takeWhile isKeyChar, rest)
    else none
  | [] => none

/-- Key transform of parse_metadata: strip, lowercase, spaces to underscores. -/
def normKey (run : Str) : Str :=
  (pyLower (pyStrip run)).map fun c => if c = ' ' then '_' else c

/-- Python dict assignment d[k] = v on an insertion-ordered association list. -/
def upsert (acc : List (Str × Str)) (k v : Str) : List (Str × Str) :=
  if acc.any (fun p => p.1 = k) then
    acc.map (fun p => if p.1 = k then (k, v) else p)
  else acc ++ [(k, v)]

/-- The lines after the first line starting with a hash-space heading marker,
or none when no such line exists. -/
def afterFirstHeading : List Str → Option (List Str)
  | [] => none
  | l :: rest => if ['#', ' '].isPrefixOf l then some rest else afterFirstHeading rest

/-- The metadata consumption loop of parse_metadata: skip blank lines, stop at
a stripped line starting with hash, bang or bracket, record key-value lines,
and silently skip any other line without stopping. -/
def pm_go : List Str → List (Str × Str) → List (Str × Str)
  | [], acc => acc
  | l :: rest, acc =>
    if pyStrip l = [] then pm_go rest acc
    else if (pyStrip l).headD ' ' = '#' ∨ (pyStrip l).headD ' ' = '!' ∨
        (pyStrip l).headD ' ' = '[' then acc
    else match kv_parse (pyStrip l) with
      | some (run, r) => pm_go rest (upsert acc (normKey run) (pyStrip r))
      | none => pm_go rest acc

/-- notion_to_airtable.py parse_metadata. -/
def parse_metadata (content : Str) : List (Str × Str) :=
  let lines := splitOn '\n' content
  pm_go ((afterFirstHeading lines).getD lines) []

/-- The line loop of extract_body, with its two pieces of state: whether the
metadata region is still open and whether the title line has been consumed. -/
def eb_go : Bool → Bool → List Str → List Str
  | _, _, [] => []
  | inMeta, found, l :: rest =>
    if ['#', ' '].isPrefixOf l ∧ found = false then eb_go inMeta true rest
    else if inMeta then
      let s := pyStrip l
      if s = [] then eb_go inMeta found rest
      else if (kv_parse s).isSome then eb_go inMeta found rest
      else l :: eb_go false found rest
    else l :: eb_go inMeta found rest

/-- notion_to_airtable.py extract_body. -/
def extract_body (content : Str) : Str :=
  pyStrip (joinWith '\n' (eb_go true false (splitOn '\n' content)))

/-- re.search of the multiline title regex: the first line starting with the
hash-space marker followed by a non-empty remainder; the remainder is the title. -/
def firstHeadingText : List Str → Option Str
  | [] => none
  | l :: rest =>
    if ['#', ' '].isPrefixOf l ∧ l.drop 2 ≠ [] then some (l.drop 2)
    else firstHeadingText rest

/-- The export-side path step: any non-empty non-parenthesis run. -/
def mdAnyAfterParen (alt r2 : Str) : Option (Str × Str × Str) :=
  if 1 ≤ (r2.dropWhile (· ≠ ')')).length ∧
      (r2.dropWhile (· ≠ ')')).headD ' ' = ')' ∧
      r2.takeWhile (· ≠ ')') ≠ [] then
    some (alt, r2.takeWhile (· ≠ ')'), (r2.dropWhile (· ≠ ')')).drop 1)
  else none

/-- The export-side alt step. -/
def mdAnyAfterBracket (t : Str) : Option (Str × Str × Str) :=
  if 2 ≤ (t.dropWhile (· ≠ ']')).length ∧
      (t.dropWhile (· ≠ ']')).headD ' ' = ']' ∧
      ((t.dropWhile (· ≠ ']')).drop 1).headD ' ' = '(' then
    mdAnyAfterParen (t.takeWhile (· ≠ ']')) ((t.dropWhile (· ≠ ']')).drop 2)
  else none

/-- One attempted match of the export-side image regex (any non-empty path, no
extension filter, no lookahead) at the head of the input. -/
def try_md_any : Str → Option (Str × Str × Str)
  | c1 :: c2 :: t =>
    if c1 = '!' ∧ c2 = '[' then mdAnyAfterBracket t else none
  | _ => none

/-- The child-link path step: a non-parenthesis run ending in ".md" with a
non-empty part before it. -/
def linkAfterParen (a r2 : Str) : Option (Str × Str × Str) :=
  if 1 ≤ (r2.dropWhile (· ≠ ')')).length ∧
      (r2.dropWhile (· ≠ ')')).headD ' ' = ')' ∧ a ≠ [] ∧
      ['.','m','d'].isSuffixOf (r2.takeWhile (· ≠ ')')) ∧
      4 ≤ (r2.takeWhile (· ≠ ')')).length then
    some (a, r2.takeWhile (· ≠ ')'), (r2.dropWhile (· ≠ ')')).drop 1)
  else none

/-- The child-link alt step. -/
def linkAfterBracket (t : Str) : Option (Str × Str × Str) :=
  if 2 ≤ (t.dropWhile (· ≠ ']')).length ∧
      (t.dropWhile (· ≠ ']')).headD ' ' = ']' ∧
      ((t.dropWhile (· ≠ ']')).drop 1).headD ' ' = '(' then
    linkAfterParen (t.takeWhile (· ≠ ']')) ((t.dropWhile (· ≠ ']')).drop 2)
  else none

/-- One attempted match of the child-page link regex: bracketed non-empty text
then a parenthesised path ending in ".md" (with a non-empty part before it). -/
def try_link : Str → Option (Str × Str × Str)
  | c0 :: t => if c0 = '[' then linkAfterBracket t else none
  | [] => none

/-- re.finditer scan collecting the two groups of each image match. -/
def findall_md_go : Nat → Str → List (Str × Str)
  | 0, _ => []
  | _ + 1, [] => []
  | fuel + 1, c :: rest =>
    match try_md_any (c :: rest) with
    | some (a, p, r) => (a, p) :: findall_md_go fuel r
    | none => findall_md_go fuel rest

/-- re.finditer scan collecting the group of each double-bracket match. -/
def findall_obs_go : Nat → Str → List Str
  | 0, _ => []
  | _ + 1, [] => []
  | fuel + 1, c :: rest =>
    match try_obsidian (c :: rest) with
    | some (g, r) => g :: findall_obs_go fuel r
    | none => findall_obs_go fuel rest

/-- re.finditer scan collecting the two groups of each child-page link match. -/
def findall_link_go : Nat → Str → List (Str × Str)
  | 0, _ => []
  | _ + 1, [] => []
  | fuel + 1, c :: rest =>
    match try_link (c :: rest) with
    | some (a, p, r) => (a, p) :: findall_link_go fuel r
    | none => findall_link_go fuel rest

/-- pathlib base / rel and str of the result (an absolute rel wins). -/
def joinPath (base rel : Str) : Str :=
  if rel.headD ' ' = '/' then rel else base ++ '/' :: rel

/-- notion_to_airtable.py find_images: the image matches whose decoded path
exists relative to the document folder become working images (as full paths);
the rest, and every double-bracket reference (tagged "obsidian:"), are broken.
The filesystem is embedded as the list fsrc of existing full paths. -/
def find_images (content : Str) (basePath : Str) (fsrc : List Str) : List Str × List Str :=
  let md := findall_md_go content.length content
  let working := (md.filter fun ap =>
    joinPath basePath (replacePercent20 ap.2) ∈ fsrc).map fun ap =>
      joinPath basePath (replacePercent20 ap.2)
  let broken1 := (md.filter fun ap =>
    joinPath basePath (replacePercent20 ap.2) ∉ fsrc).map fun ap => replacePercent20 ap.2
  let obs := findall_obs_go content.length content
  (working, broken1 ++ obs.map fun g => 'o' :: 'b' :: 's' :: 'i' :: 'd' :: 'i' :: 'a' :: 'n' :: ':' :: g)

/-- notion_to_airtable.py ContentItem. -/
structure ContentItem where
  notion_id : Str
  title : Str
  status : Str := []
  content_type : Str := []
  ai_keywords : Str := []
  ai_summary : Str := []
  author : Str := []
  link : Str := []
  publish_date : Str := []
  created_time : Str := []
  year : Str := []
  tags : Str := []
  body : Str := []
  images : List Str := []
  broken_images : List Str := []
  child_pages : List (Str × Str) := []
  source_file : Str := []
  deriving DecidableEq

/-- Python dict.get(k, "") on the parsed metadata. -/
def metaGet (m : List (Str × Str)) (k : Str) : Str :=
  ((m.find? fun p => p.1 = k).map Prod.snd).getD []

/-- notion_to_airtable.py process_markdown_file, on a document given by its
folder path, its filename, its text, and the existing-file list. -/
def process_markdown (dirPath fileName content : Str) (fsrc : List Str) : ContentItem :=
  let lines := splitOn '\n' content
  let meta := parse_metadata content
  let imgs := find_images content dirPath fsrc
  { notion_id := (extract_notion_id fileName).getD (pyStem fileName)
    title := (firstHeadingText lines).getD (pyStem fileName)
    status := metaGet meta ['s','t','a','t','u','s']
    content_type := metaGet meta ['c','o','n','t','e','n','t','_','t','y','p','e']
    ai_keywords := metaGet meta ['a','i','_','k','e','y','w','o','r','d','s']
    ai_summary := metaGet meta ['a','i','_','s','u','m','m','a','r','y']
    author := metaGet meta ['a','u','t','h','o','r']
    link := metaGet meta ['l','i','n','k']
    publish_date := metaGet meta ['p','u','b','l','i','s','h','_','d','a','t','e']
    created_time := metaGet meta ['c','r','e','a','t','e','d','_','t','i','m','e']
    year := metaGet meta ['y','e','a','r']
    tags := metaGet meta ['t','a','g','s']
    body := extract_body content
    images := imgs.1
    broken_images := imgs.2
    child_pages := findall_link_go content.length content
    source_file := dirPath ++ '/' :: fileName }

-- ============================================================
-- notion_to_airtable.py, image copying and export
-- ============================================================

/-- Decimal digits of n, least significant first, with explicit fuel. -/
def toRevDigits : Nat → Nat → List Nat
  | 0, _ => []
  | fuel + 1, n => if n = 0 then [] else n % 10 :: toRevDigits fuel (n / 10)

/-- One decimal digit as a character. -/
def digitChar (d : Nat) : Char := Char.ofNat (48 + d)

/-- Python str(n) for a natural number. -/
def natToDec (n : Nat) : Str :=
  if n = 0 then ['0'] else ((toRevDigits n n).map digitChar).reverse

/-- The candidate flat names tried by copy_images: first the plain
identifier-prefixed name, then names with the numeric disambiguator 1, 2, ...
inserted between the identifier prefix and the basename. -/
def candName (id8 base : Str) : Nat → Str
  | 0 => id8 ++ '_' :: base
  | k + 1 => id8 ++ '_' :: (natToDec (k + 1) ++ '_' :: base)

/-- The while-not-exists loop of copy_images: first candidate, in order, that
is not an existing destination name; the fuel makes the loop structural and
any fuel beyond the pigeonhole bound is enough. -/
def firstFresh (fs : List Str) (cand : Nat → Str) : Nat → Nat → Str
  | c, 0 => cand c
  | c, fuel + 1 => if cand c ∈ fs then firstFresh fs cand (c + 1) fuel else cand c

/-- The destination name chosen for one copied image given the current
contents fs of the flat output directory. -/
def copy_one (fs : List Str) (id8 base : Str) : Str :=
  firstFresh fs (candName id8 base) 0 (fs.length + 2)

/-- The inner loop of copy_images over one item's image list; fs is the list
of names present in the output directory, m the path-to-new-name mapping. -/
def copy_imgs_list (fsrc : List Str) (id8 : Str) :
    List Str → List Str → List (Str × Str) → List Str × List (Str × Str)
  | [], fs, m => (fs, m)
  | img :: rest, fs, m =>
    if img ∈ fsrc then
      let nn := copy_one fs id8 (afterLast '/' img)
      copy_imgs_list fsrc id8 rest (nn :: fs) (upsert m img nn)
    else copy_imgs_list fsrc id8 rest fs m

/-- The outer loop of copy_images over all items. -/
def copy_images_go (fsrc : List Str) :
    List ContentItem → List Str → List (Str × Str) → List Str × List (Str × Str)
  | [], fs, m => (fs, m)
  | it :: items, fs, m =>
    copy_images_go fsrc items
      (copy_imgs_list fsrc (it.notion_id.take 8) it.images fs m).1
      (copy_imgs_list fsrc (it.notion_id.take 8) it.images fs m).2

/-- notion_to_airtable.py copy_images: fs0 is the initial contents of the flat
output directory; returns its final contents and the name mapping. -/
def copy_images (fsrc : List Str) (items : List ContentItem) (fs0 : List Str) :
    List Str × List (Str × Str) :=
  copy_images_go fsrc items fs0 []

/-- One row of content.json as written by export_json: all scalar fields are
carried over verbatim and the three list fields are joined with comma-space. -/
structure ExportRow where
  notion_id : Str
  title : Str
  status : Str
  content_type : Str
  ai_keywords : Str
  ai_summary : Str
  author : Str
  link : Str
  publish_date : Str
  created_time : Str
  year : Str
  tags : Str
  body : Str
  images : Str
  broken_images : Str
  child_pages : Str
  source_file : Str
  deriving DecidableEq

/-- The asdict plus joins performed by export_json on one item. -/
def export_row (it : ContentItem) : ExportRow :=
  { notion_id := it.notion_id, title := it.title, status := it.status
    content_type := it.content_type, ai_keywords := it.ai_keywords
    ai_summary := it.ai_summary, author := it.author, link := it.link
    publish_date := it.publish_date, created_time := it.created_time
    year := it.year, tags := it.tags, body := it.body
    images := joinCommaSpace (it.images.map (afterLast '/'))
    broken_images := joinCommaSpace it.broken_images
    child_pages := joinCommaSpace (it.child_pages.map Prod.fst)
    source_file := it.source_file }

/-- notion_to_airtable.py export_json. -/
def export_json (items : List ContentItem) : List ExportRow := items.map export_row

/-- The export phase of main: copy the images, then export the items; the
items themselves are threaded unchanged into the export. -/
def export_pipeline (fsrc : List Str) (items : List ContentItem) (fs0 : List Str) :
    (List Str × List (Str × Str)) × List ExportRow :=
  (copy_images fsrc items fs0, export_json items)

-- ============================================================
-- Record mapping: import_to_airtable.py map_record and the per-record
-- field loop of full_import.py import_documents
-- ============================================================

/-- Shared cleaning chain: strip whitespace, then strip double quotes, then
strip single quotes (clean_value in import_to_airtable.py and the inline
expression in full_import.py). -/
def clean_value (v : Str) : Str := stripAll '\'' (stripAll '"' (pyStrip v))

/-- Python dict.get with default "" on a record embedded as an association list. -/
def recordGet (r : List (Str × Str)) (k : Str) : Str :=
  ((r.find? fun p => p.1 = k).map Prod.snd).getD []

/-- Python STATUS_MAPPING.get(v): none both for a missing key and for a key
mapped to None. -/
def statusMapGet (tbl : List (Str × Option Str)) (v : Str) : Option Str :=
  match tbl.find? (fun e => e.1 = v) with
  | some e => e.2
  | none => none

/-- full_import.py FIELD_MAPPING. -/
def FIELD_MAPPING_full : List (Str × Str) :=
  [("title".data, "Title".data), ("content".data, "Content".data),
   ("status".data, "Status".data), ("notion_id".data, "Notion_ID".data),
   ("tags".data, "Notion_Tag".data), ("publish_date".data, "Publish_Date".data)]

/-- full_import.py STATUS_MAPPING (the table containing "Imported"). -/
def STATUS_MAPPING_full : List (Str × Option Str) :=
  [("Published".data, some ("Published".data)), ("Inbox".data, some ("Inbox".data)),
   ("Imported".data, some ("Inbox".data)), ("#reference".data, some ("Inbox".data)),
   ("#idea".data, some ("Inbox".data)), ([], none)]

/-- import_to_airtable.py FIELD_MAPPING. -/
def FIELD_MAPPING_ita : List (Str × Str) :=
  [("title".data, "Title".data), ("body".data, "Content".data),
   ("status".data, "Status".data), ("notion_id".data, "Notion_ID".data),
   ("tags".data, "Notion_Tag".data), ("publish_date".data, "Publish_Date".data)]

/-- import_to_airtable.py STATUS_MAPPING (no "Imported" entry). -/
def STATUS_MAPPING_ita : List (Str × Option Str) :=
  [("Published".data, some ("Published".data)), ("Inbox".data, some ("Inbox".data)),
   ("#reference".data, some ("Inbox".data)), ("#idea".data, some ("Inbox".data)),
   ([], none)]

/-- The field loop in full_import.py import_documents: skip empty source
values, clean, translate status (dropping the field when the translation is
none), rewrite image references inside content, and emit in mapping order. -/
def build_fields_go (imgmap : AssetMap) (record : List (Str × Str)) :
    List (Str × Str) → List (Str × Str)
  | [] => []
  | (jk, ak) :: rest =>
    let v := recordGet record jk
    if v = [] then build_fields_go imgmap record rest
    else
      let v1 := clean_value v
      if jk = "status".data then
        match statusMapGet STATUS_MAPPING_full v1 with
        | none => build_fields_go imgmap record rest
        | some mv => (ak, mv) :: build_fields_go imgmap record rest
      else if jk = "content".data then
        (ak, replace_image_references v1 imgmap) :: build_fields_go imgmap record rest
      else (ak, v1) :: build_fields_go imgmap record rest

/-- The destination field set built for one record by import_documents. -/
def build_fields (imgmap : AssetMap) (record : List (Str × Str)) : List (Str × Str) :=
  build_fields_go imgmap record FIELD_MAPPING_full

/-- import_documents after the field loop: append Import_Project when the
record carries a project value, then keep the record only when it has a
non-empty Title; none models a skipped record. -/
def import_record (imgmap : AssetMap) (record : List (Str × Str)) :
    Option (List (Str × Str)) :=
  let f0 := build_fields imgmap record
  let fields :=
    if recordGet record "project".data ≠ [] then
      f0 ++ [("Import_Project".data, recordGet record "project".data)]
    else f0
  if fields ≠ [] ∧ recordGet fields "Title".data ≠ [] then some fields else none

/-- The field loop of import_to_airtable.py map_record. -/
def map_record_go (record : List (Str × Str)) : List (Str × Str) → List (Str × Str)
  | [] => []
  | (nk, ak) :: rest =>
    let v := recordGet record nk
    if v = [] then map_record_go record rest
    else
      let c := clean_value v
      if nk = "status".data then
        match statusMapGet STATUS_MAPPING_ita c with
        | none => map_record_go record rest
        | some mv => (ak, mv) :: map_record_go record rest
      else (ak, c) :: map_record_go record rest

/-- import_to_airtable.py map_record (the linked-project list value is
embedded as the bare project id string). -/
def map_record (record : List (Str × Str)) (projectId : Option Str) : List (Str × Str) :=
  let fields := map_record_go record FIELD_MAPPING_ita
  match projectId with
  | some pid => if pid ≠ [] then fields ++ [("PROJECT".data, pid)] else fields
  | none => fields

-- ============================================================
-- Definitions modelled from the spec, for comparison or because the
-- implementation is not under src/
-- ============================================================

/-- Modelled from the spec: rule (d) of the section 4.3 import-phase fallback
chain, stripping one trailing space-plus-digits token immediately before the
extension ("Image 2.png" to "Image.png"). -/
def strip_trailing_digits_token (f : Str) : Str :=
  if '.' ∈ f then
    let base := beforeLast '.' f
    let ext := afterLast '.' f
    let rb := base.reverse
    let ds := rb.takeWhile Char.isDigit
    if ds ≠ [] ∧ (rb.drop ds.length).headD '\x00' = ' ' then
      ((rb.drop (ds.length + 1)).reverse) ++ '.' :: ext
    else f
  else f

/-- Modelled from the spec: the full section 4.3 import-phase fallback chain
as the spec words it — (a) exact, (b) case-insensitive, (c) basename exact
then case-insensitive, (d) trailing-digits normalization retried exact,
(e) substring containment.  This definition exists only to be compared with
find_asset_match, which is translated from the code. -/
def find_asset_match_spec (m : AssetMap) (filename0 : Str) : Option (Str × Str) :=
  let filename := pyStrip filename0
  match m.find? (fun e => e.1 = filename) with
  | some e => some e.2
  | none =>
  let fl := pyLower filename
  match m.find? (fun e => pyLower e.1 = fl) with
  | some e => some e.2
  | none =>
  let base := afterLast '/' filename
  match m.find? (fun e => e.1 = base) with
  | some e => some e.2
  | none =>
  match m.find? (fun e => pyLower e.1 = pyLower base) with
  | some e => some e.2
  | none =>
  let f2 := strip_trailing_digits_token filename
  match m.find? (fun e => e.1 = f2) with
  | some e => some e.2
  | none =>
  let fb := pyLower (beforeLast '.' filename)
  match m.find? (fun e =>
      let ib := pyLower (beforeLast '.' e.1)
      isSubstring fb ib || isSubstring ib fb) with
  | some e => some e.2
  | none => none

/-- Modelled from the spec: the section 4.1 trailing-identifier strip rule
applied to a folder name (a trailing 32-character lowercase-hex token preceded
by whitespace is removed together with the separating whitespace). -/
def strip_trailing_id_token (s : Str) : Str :=
  let r := s.reverse
  if (r.take 32).length = 32 ∧ (r.take 32).all isHexDigitLower ∧ pyIsSpace (r.getD 32 'x') then
    ((r.drop 32).dropWhile pyIsSpace).reverse
  else s

/-- Modelled from the spec: section 4.1 project resolution from a document's
relative path (as path segments, the filename being the last segment).  No
implementation exists under src/ — import_documents in full_import.py only
reads a precomputed "project" field out of content.json — so this definition
follows the spec's words: drop the wrapper segment, default to the sentinel
for a root-level file, collapse one level under the personal-projects marker
(with a generic fallback when the marker is the deepest folder), and otherwise
take the first folder with any trailing identifier token stripped. -/
def resolve_project (wrapper marker sentinel fallbackName : Str)
    (path : List Str) : Str :=
  let segs := match path with
    | [] => ([] : List Str)
    | s :: rest => if s = wrapper then rest else s :: rest
  if segs.length ≤ 1 then sentinel
  else if segs.headD [] = marker then
    if segs.length = 2 then fallbackName
    else (segs.drop 1).headD []
  else strip_trailing_id_token (segs.headD [])

-- ============================================================
-- Theorems
-- ============================================================

/-- The two-entry mapping on which the code's matcher and the spec's fallback
chain disagree. -/
def c1DemoMap : AssetMap :=
  [("Unt.png".data, ("r2".data, "a2".data)), ("Untitled.png".data, ("r1".data, "a1".data))]

/-- C1 counterexample: the claim attributes the resolution to an ordered
fallback chain containing a trailing-digits normalization pass placed before
the substring-containment fallback.  The code's find_asset_match contains no
such pass: on the mapping c1DemoMap and the filename "Untitled 2.png" the
spec's chain (find_asset_match_spec, rule (d) stripping " 2" and retrying
exact) returns the "Untitled.png" entry, while the code returns the "Unt.png"
entry through plain substring containment, so the chain described by the claim
is not the one in the code. -/
theorem C1_counterexample :
    find_asset_match c1DemoMap "Untitled 2.png".data = some ("r2".data, "a2".data) ∧
    find_asset_match_spec c1DemoMap "Untitled 2.png".data = some ("r1".data, "a1".data) ∧
    find_asset_match c1DemoMap "Untitled 2.png".data ≠
      find_asset_match_spec c1DemoMap "Untitled 2.png".data := by
  refine ⟨by decide, by decide, by decide⟩

/-- C1 (amended): given the mapping sending "Untitled 1.png" to (rec2, att2),
rewriting a body containing the double-bracket reference to "Untitled 1 3.png"
does resolve that reference to (rec2, att2) — but through the
substring-containment fallback of find_asset_match (the extension-stripped
lowercased "untitled 1" is contained in "untitled 1 3"), the code having no
trailing-digits normalization pass. -/
theorem C1_theorem :
    replace_image_references "![[Untitled 1 3.png]]".data
        [("Untitled 1.png".data, ("rec2".data, "att2".data))] =
      "![Untitled 1 3](asset:rec2:att2)".data ∧
    find_asset_match [("Untitled 1.png".data, ("rec2".data, "att2".data))]
        "Untitled 1 3.png".data = some ("rec2".data, "att2".data) := by
  refine ⟨by decide, by decide⟩

/-- A document whose body references an image that exists and is copied. -/
def c2Item : ContentItem :=
  { notion_id := "aaaaaaaabb".data, title := "T".data
    body := "see ![pic](Untitled.png) end".data
    images := ["/exp/Untitled.png".data] }

/-- C2 counterexample: the referenced image is successfully copied into the
flat output directory (as "aaaaaaaa_Untitled.png"), yet the body stored in the
exported tabular output is byte-for-byte the original: it still contains the
raw token "![pic](Untitled.png)" and never mentions the new flat filename.
The export phase performs no body rewrite at all. -/
theorem C2_counterexample :
    ((export_pipeline ["/exp/Untitled.png".data] [c2Item] []).2).map ExportRow.body =
      ["see ![pic](Untitled.png) end".data] ∧
    ((export_pipeline ["/exp/Untitled.png".data] [c2Item] []).1).1 =
      ["aaaaaaaa_Untitled.png".data] ∧
    isSubstring "![pic](Untitled.png)".data "see ![pic](Untitled.png) end".data = true ∧
    isSubstring "aaaaaaaa_Untitled.png".data "see ![pic](Untitled.png) end".data = false := by
  refine ⟨by decide, by decide, by decide, by decide⟩

/-- C2 (amended): during the export phase the document bodies are exported
verbatim — for every filesystem, item list and initial output directory, the
bodies of the exported rows equal the extracted bodies of the items; image
files are copied under new flat names but no body text is rewritten. -/
theorem C2_theorem (fsrc : List Str) (items : List ContentItem) (fs0 : List Str) :
    ((export_pipeline fsrc items fs0).2).map ExportRow.body = items.map ContentItem.body := by
  simp [export_pipeline, export_json, List.map_map, Function.comp_def, export_row]

/-- C4: project resolution, modelled from the spec because no implementation
exists under src/, is a pure total function of the relative path: equal paths
give equal projects, every path has exactly one resolved project, the
personal-projects marker collapses one level ("Wrapper/Projekt
(egna)/Forefront/Doc 1.md" resolves to "Forefront"), an ordinary first folder
is the project ("Wrapper/Politik/Doc.md" resolves to "Politik"), and a
root-level file resolves to the sentinel "Inbox". -/
theorem C4_theorem (fallbackName : Str) :
    (∀ p q : List Str, p = q →
      resolve_project "Wrapper".data "Projekt (egna)".data "Inbox".data fallbackName p =
        resolve_project "Wrapper".data "Projekt (egna)".data "Inbox".data fallbackName q) ∧
    (∀ p : List Str, ∃! s : Str,
      resolve_project "Wrapper".data "Projekt (egna)".data "Inbox".data fallbackName p = s) ∧
    resolve_project "Wrapper".data "Projekt (egna)".data "Inbox".data fallbackName
      ["Wrapper".data, "Projekt (egna)".data, "Forefront".data, "Doc 1.md".data] =
      "Forefront".data ∧
    resolve_project "Wrapper".data "Projekt (egna)".data "Inbox".data fallbackName
      ["Wrapper".data, "Politik".data, "Doc.md".data] = "Politik".data ∧
    resolve_project "Wrapper".data "Projekt (egna)".data "Inbox".data fallbackName
      ["Doc.md".data] = "Inbox".data := by
  refine ⟨fun p q h => by rw [h], fun p => ⟨_, rfl, fun y hy => hy.symm⟩, rfl, rfl, rfl⟩

/-- C5 counterexample: in this document the line "plain body line" is the
first line after the heading that fails to match the key-value shape, yet the
later line "Author: Bob" still becomes a metadata entry — the parser skips
non-matching lines (unless they start with hash, bang or bracket) instead of
stopping at them, so the claim's stopping rule is false. -/
theorem C5_counterexample :
    parse_metadata "# T\nStatus: Done\nplain body line\nAuthor: Bob".data =
      [("status".data, "Done".data), ("author".data, "Bob".data)] := by
  decide

/-- C6 counterexample: for the document "x" newline "A: b", the extracted body
is the whole text again, and re-running the metadata parser on that body
yields the entry ("a", "b") — one entry, not zero — so metadata extraction is
not idempotent. -/
theorem C6_counterexample :
    parse_metadata (extract_body "x\nA: b".data) = [("a".data, "b".data)] ∧
    parse_metadata (extract_body "x\nA: b".data) ≠ [] := by
  refine ⟨by decide, by decide⟩

/-- The asset mapping refuting C9: it contains a key equal to ".png". -/
def c9DemoMap : AssetMap :=
  [("x.png".data, ("r1".data, "a1".data)), (".png".data, ("r2".data, "a2".data))]

/-- C9 counterexample: the claim quantifies over every non-empty asset
mapping, but on a mapping containing the key ".png" the exact-match rule fires
first and the reference ![[.png]] resolves to the second entry, not to the
first entry in iteration order as claimed. -/
theorem C9_counterexample :
    find_asset_match c9DemoMap ".png".data = some ("r2".data, "a2".data) ∧
    ("r2".data, "a2".data) ≠ ("r1".data, "a1".data) ∧
    replace_image_references "![[.png]]".data c9DemoMap = "![](asset:r2:a2)".data := by
  refine ⟨by decide, by decide, by decide⟩

/-- The body and mapping refuting C10's universal frame property. -/
def c10Body : Str := "![w](![x.png)y](z.pdf)".data

/-- C10 counterexample: the body c10Body contains the bracketed-path reference
"![x.png)y](z.pdf)" whose extension is ".pdf" (not one of the five image
extensions), yet after rewriting with a mapping for "![x.png" the output no
longer contains that reference byte-for-byte: a surrounding match ("![w](" up
to the first ")") consumed its leading characters.  So a bracketed-path
reference with a non-image extension is not always left unchanged. -/
theorem C10_counterexample :
    isSubstring "![x.png)y](z.pdf)".data c10Body = true ∧
    replace_image_references c10Body [("![x.png".data, ("r".data, "t".data))] =
      "![w](asset:r:t)y](z.pdf)".data ∧
    isSubstring "![x.png)y](z.pdf)".data
      (replace_image_references c10Body [("![x.png".data, ("r".data, "t".data))]) = false := by
  refine ⟨by decide, by decide, by decide⟩

/-- C3 counterexample: for the filename "doc <32-hex>.md" and a document text
with no heading line, the identity resolution yields the identifier exactly,
but the resolved title is the filename minus its extension with the identifier
token still attached — not "doc" as the claim requires; no code strips the
identifier from the filename to form a title. -/
theorem C3_counterexample :
    extract_notion_id "doc 0123456789abcdef0123456789abcdef.md".data =
      some "0123456789abcdef0123456789abcdef".data ∧
    (process_markdown "/in".data "doc 0123456789abcdef0123456789abcdef.md".data
        "no heading".data []).title =
      "doc 0123456789abcdef0123456789abcdef".data ∧
    "doc 0123456789abcdef0123456789abcdef".data ≠ "doc".data := by
  refine ⟨by decide, by decide, by decide⟩

/-- When the reversed string starts with a non-newline character, the
dollar-anchor newline adjustment does nothing. -/
theorem dropTrailingNewline_of_reverse_cons {f : Str} {c : Char} {r : Str}
    (h : f.reverse = c :: r) (hc : c ≠ '\n') : dropTrailingNewline f = f := by
  unfold dropTrailingNewline
  rw [h]
  simp [hc]

/-- Extraction succeeds on every filename built as anything followed by a
32-character lowercase-hex token followed by ".md". -/
theorem extract_notion_id_append (t hexid : Str) (h32 : hexid.length = 32)
    (hhex : ∀ c ∈ hexid, isHexDigitLower c = true) :
    extract_notion_id (t ++ hexid ++ ".md".data) = some hexid := by
  have hmd : ".md".data = ['.','m','d'] := rfl
  have hrev : (t ++ hexid ++ ".md".data).reverse =
      'd' :: ('m' :: '.' :: (hexid.reverse ++ t.reverse)) := by
    rw [hmd]
    simp [List.reverse_append]
  have hdrop := dropTrailingNewline_of_reverse_cons hrev (by decide)
  have hsuf : (['.','m','d'].isSuffixOf (t ++ hexid ++ ".md".data)) = true := by
    rw [List.isSuffixOf_iff_suffix, hmd]
    exact ⟨t ++ hexid, by simp⟩
  have hcore : (t ++ hexid ++ ".md".data).take ((t ++ hexid ++ ".md".data).length - 3) =
      t ++ hexid := by
    have hre : t ++ hexid ++ ".md".data = (t ++ hexid) ++ ".md".data := by simp
    rw [hre]
    exact List.take_left' (by simp [hmd]; omega)
  have hid : (t ++ hexid).drop ((t ++ hexid).length - 32) = hexid := by
    have hl : (t ++ hexid).length - 32 = t.length := by simp [h32]
    rw [hl]
    exact List.drop_left' rfl
  unfold extract_notion_id
  rw [hdrop, if_pos hsuf, hcore]
  show (if 32 ≤ (t ++ hexid).length ∧
      ((t ++ hexid).drop ((t ++ hexid).length - 32)).all isHexDigitLower = true
    then some ((t ++ hexid).drop ((t ++ hexid).length - 32)) else none) = some hexid
  rw [hid, if_pos]
  constructor
  · rw [List.length_append, h32]
    omega
  · exact List.all_eq_true.mpr hhex

/-- Soundness of extraction: a returned identifier is a 32-character
lowercase-hex token and, followed by ".md", is a suffix of the
(newline-adjusted) filename. -/
theorem extract_notion_id_sound (f idv : Str) (h : extract_notion_id f = some idv) :
    idv.length = 32 ∧ (∀ c ∈ idv, isHexDigitLower c = true) ∧
      (idv ++ ".md".data) <:+ dropTrailingNewline f := by
  unfold extract_notion_id at h
  set f' := dropTrailingNewline f with hf'
  by_cases hs : (['.','m','d'].isSuffixOf f') = true
  · rw [if_pos hs] at h
    by_cases hc : 32 ≤ (f'.take (f'.length - 3)).length ∧
        ((f'.take (f'.length - 3)).drop ((f'.take (f'.length - 3)).length - 32)).all
          isHexDigitLower
    · rw [if_pos hc] at h
      obtain ⟨u, hu⟩ := List.isSuffixOf_iff_suffix.mp hs
      have hcore : f'.take (f'.length - 3) = u := by
        rw [← hu]
        exact List.take_left' (by simp)
      rw [hcore] at h hc
      have hidv : idv = u.drop (u.length - 32) := (Option.some.inj h).symm
      have h32le : 32 ≤ u.length := hc.1
      have hlen32 : idv.length = 32 := by
        rw [hidv, List.length_drop]
        omega
      refine ⟨hlen32, ?_, ?_⟩
      · intro c hcmem
        rw [hidv] at hcmem
        exact List.all_eq_true.mp hc.2 c hcmem
      · obtain ⟨w, hw⟩ := List.drop_suffix (u.length - 32) u
        refine ⟨w, ?_⟩
        rw [← hu, hidv, ← List.append_assoc, hw]
    · rw [if_neg hc] at h
      exact absurd h (by simp)
  · rw [if_neg hs] at h
    exact absurd h (by simp)

/-- C3 (amended): the identifier extractor yields the 32-character
lowercase-hex token exactly for every filename of the form anything plus
token plus ".md", and an extracted identifier always is such a trailing
token; but the title is never derived by stripping the token from the
filename — it comes from the first heading line, and in its absence it is the
filename minus extension with the identifier still attached (and the same
string is then used as the document identifier fallback). -/
theorem C3_theorem :
    (∀ t hexid : Str, hexid.length = 32 → (∀ c ∈ hexid, isHexDigitLower c = true) →
      extract_notion_id (t ++ hexid ++ ".md".data) = some hexid) ∧
    (∀ f idv : Str, extract_notion_id f = some idv →
      idv.length = 32 ∧ (∀ c ∈ idv, isHexDigitLower c = true) ∧
        (idv ++ ".md".data) <:+ dropTrailingNewline f) ∧
    (∀ dir fname content : Str, ∀ fsrc : List Str,
      extract_notion_id fname = none →
      firstHeadingText (splitOn '\n' content) = none →
      (process_markdown dir fname content fsrc).title = pyStem fname ∧
        (process_markdown dir fname content fsrc).notion_id = pyStem fname) := by
  refine ⟨extract_notion_id_append, extract_notion_id_sound, ?_⟩
  intro dir fname content fsrc hid hhead
  constructor
  · show (firstHeadingText (splitOn '\n' content)).getD (pyStem fname) = pyStem fname
    rw [hhead]
    rfl
  · show (extract_notion_id fname).getD (pyStem fname) = pyStem fname
    rw [hid]
    rfl

/-- C3 witness: the amended statement evaluated on the counterexample
filename, a fully hex-free filename, and a heading-free text. -/
theorem C3_witness :
    extract_notion_id ("doc ".data ++ "0123456789abcdef0123456789abcdef".data ++ ".md".data) =
      some "0123456789abcdef0123456789abcdef".data ∧
    ("0123456789abcdef0123456789abcdef".data.length = 32 ∧
      (∀ c ∈ "0123456789abcdef0123456789abcdef".data, isHexDigitLower c = true) ∧
      ("0123456789abcdef0123456789abcdef".data ++ ".md".data) <:+
        dropTrailingNewline "doc 0123456789abcdef0123456789abcdef.md".data) ∧
    ((process_markdown "/in".data "notes.md".data "plain text".data []).title =
        pyStem "notes.md".data ∧
      (process_markdown "/in".data "notes.md".data "plain text".data []).notion_id =
        pyStem "notes.md".data) := by
  refine ⟨?_, ?_, ?_⟩
  · exact C3_theorem.1 "doc ".data "0123456789abcdef0123456789abcdef".data
      (by decide) (by decide)
  · exact C3_theorem.2.1 "doc 0123456789abcdef0123456789abcdef.md".data
      "0123456789abcdef0123456789abcdef".data (by decide)
  · exact C3_theorem.2.2 "/in".data "notes.md".data "plain text".data []
      (by decide) (by decide)

/-- Stripping keeps only characters of the original string. -/
theorem mem_pyStrip {c : Char} {s : Str} (h : c ∈ pyStrip s) : c ∈ s := by
  unfold pyStrip at h
  rw [List.mem_reverse] at h
  have h1 := (List.dropWhile_suffix pyIsSpace).subset h
  rw [List.mem_reverse] at h1
  exact (List.dropWhile_suffix pyIsSpace).subset h1

/-- A successfully parsed key-value line contains a colon. -/
theorem kv_parse_colon {s : Str} {kv : Str × Str} (h : kv_parse s = some kv) : ':' ∈ s := by
  unfold kv_parse at h
  cases hd : s.dropWhile isKeyChar with
  | nil => rw [hd] at h; exact absurd h (by simp)
  | cons c rest =>
    rw [hd] at h
    have h2 : (if c = ':' ∧ s.takeWhile isKeyChar ≠ [] ∧ rest ≠ [] then
        some (s.takeWhile isKeyChar, rest) else none) = some kv := h
    by_cases hc : c = ':' ∧ s.takeWhile isKeyChar ≠ [] ∧ rest ≠ []
    · have : ':' ∈ s.dropWhile isKeyChar := by
        rw [hd, hc.1]
        exact List.mem_cons_self _ _
      exact (List.dropWhile_suffix isKeyChar).subset this
    · rw [if_neg hc] at h2
      exact absurd h2 (by simp)

/-- splitOn produces no list with fresh members: every character of every
part occurs in the split string. -/
theorem mem_of_mem_splitOn {sep : Char} :
    ∀ {s : Str} {l : Str} {c : Char}, l ∈ splitOn sep s → c ∈ l → c ∈ s
  | [], l, c, hl, hc => by
    unfold splitOn at hl
    simp at hl
    subst hl
    exact absurd hc (by simp)
  | a :: rest, l, c, hl, hc => by
    unfold splitOn at hl
    by_cases ha : a = sep
    · rw [if_pos ha] at hl
      rcases List.mem_cons.mp hl with h1 | h1
      · subst h1; exact absurd hc (by simp)
      · exact List.mem_cons_of_mem _ (mem_of_mem_splitOn h1 hc)
    · rw [if_neg ha] at hl
      rcases List.mem_cons.mp hl with h1 | h1
      · subst h1
        rcases List.mem_cons.mp hc with h2 | h2
        · subst h2; exact List.mem_cons_self _ _
        · cases hr : splitOn sep rest with
          | nil =>
            rw [hr] at h2
            exact absurd h2 (by simp)
          | cons r0 rt =>
            rw [hr] at h2
            have : r0 ∈ splitOn sep rest := by rw [hr]; exact List.mem_cons_self _ _
            exact List.mem_cons_of_mem _ (mem_of_mem_splitOn this h2)
      · have : l ∈ splitOn sep rest := List.mem_of_mem_tail h1
        exact List.mem_cons_of_mem _ (mem_of_mem_splitOn this hc)

/-- If no considered line contains a colon, the metadata loop only ever
skips or stops and returns its accumulator. -/
theorem pm_go_eq_of_no_colon :
    ∀ (ls : List Str) (acc : List (Str × Str)),
      (∀ l ∈ ls, ':' ∉ l) → pm_go ls acc = acc
  | [], _, _ => rfl
  | l :: rest, acc, h => by
    have hrest := fun l' hl' => h l' (List.mem_cons_of_mem _ hl')
    have hl := h l (List.mem_cons_self _ _)
    unfold pm_go
    by_cases h1 : pyStrip l = []
    · rw [if_pos h1]
      exact pm_go_eq_of_no_colon rest acc hrest
    · rw [if_neg h1]
      by_cases h2 : (pyStrip l).headD ' ' = '#' ∨ (pyStrip l).headD ' ' = '!' ∨
          (pyStrip l).headD ' ' = '['
      · rw [if_pos h2]
      · rw [if_neg h2]
        cases hkv : kv_parse (pyStrip l) with
        | some kv => exact absurd (mem_pyStrip (kv_parse_colon hkv)) hl
        | none => exact pm_go_eq_of_no_colon rest acc hrest

/-- A successful heading search returns a suffix of the line list. -/
theorem afterFirstHeading_suffix :
    ∀ {ls r : List Str}, afterFirstHeading ls = some r → r <:+ ls
  | [], r, h => by exact absurd h (by simp [afterFirstHeading])
  | l :: rest, r, h => by
    unfold afterFirstHeading at h
    by_cases hp : (['#', ' '].isPrefixOf l) = true
    · rw [if_pos hp] at h
      cases h
      exact List.suffix_cons l rest
    · rw [if_neg hp] at h
      exact (afterFirstHeading_suffix h).trans (List.suffix_cons l rest)

/-- C6 (amended): metadata extraction is idempotent only in the absence of
re-parsable lines — whenever the extracted body contains no colon at all,
re-parsing it yields zero metadata entries; in general a later "Key: value"
shaped line survives into the body and is re-consumed, as the counterexample
shows. -/
theorem C6_theorem (content : Str) (h : ':' ∉ extract_body content) :
    parse_metadata (extract_body content) = [] := by
  unfold parse_metadata
  show pm_go ((afterFirstHeading (splitOn '\n' (extract_body content))).getD
    (splitOn '\n' (extract_body content))) [] = []
  have hlines : ∀ l ∈ splitOn '\n' (extract_body content), ':' ∉ l :=
    fun l hl hc => h (mem_of_mem_splitOn hl hc)
  cases hafter : afterFirstHeading (splitOn '\n' (extract_body content)) with
  | none =>
    exact pm_go_eq_of_no_colon _ _ hlines
  | some r =>
    exact pm_go_eq_of_no_colon _ _
      (fun l hl => hlines l ((afterFirstHeading_suffix hafter).subset hl))

/-- C6 witness: the amended idempotence applied to a concrete document whose
extracted body ("body here") is colon-free. -/
theorem C6_witness :
    parse_metadata (extract_body "# T\nStatus: x\nbody here".data) = [] :=
  C6_theorem "# T\nStatus: x\nbody here".data (by decide)

/-- Keys surviving an upsert satisfy any predicate holding for the
accumulator's keys and for the inserted key. -/
theorem upsert_keys {P : Str → Prop} {acc : List (Str × Str)} {k v : Str}
    (hacc : ∀ p ∈ acc, P p.1) (hk : P k) :
    ∀ p ∈ upsert acc k v, P p.1 := by
  intro p hp
  unfold upsert at hp
  by_cases hmem : acc.any (fun q => q.1 = k)
  · rw [if_pos hmem] at hp
    obtain ⟨q, hq, hpq⟩ := List.mem_map.mp hp
    by_cases hqk : q.1 = k
    · rw [if_pos hqk] at hpq
      rw [← hpq]
      exact hk
    · rw [if_neg hqk] at hpq
      rw [← hpq]
      exact hacc q hq
  · rw [if_neg hmem] at hp
    rcases List.mem_append.mp hp with h1 | h1
    · exact hacc p h1
    · simp at h1
      rw [h1]
      exact hk

/-- Every key produced by the metadata loop is the normalisation of some key
run (lowercased, stripped, spaces replaced by underscores). -/
theorem pm_go_keys :
    ∀ (ls : List Str) (acc : List (Str × Str)),
      (∀ p ∈ acc, ∃ run, p.1 = normKey run) →
      ∀ p ∈ pm_go ls acc, ∃ run, p.1 = normKey run
  | [], acc, hacc, p, hp => hacc p hp
  | l :: rest, acc, hacc, p, hp => by
    unfold pm_go at hp
    by_cases h1 : pyStrip l = []
    · rw [if_pos h1] at hp
      exact pm_go_keys rest acc hacc p hp
    · rw [if_neg h1] at hp
      by_cases h2 : (pyStrip l).headD ' ' = '#' ∨ (pyStrip l).headD ' ' = '!' ∨
          (pyStrip l).headD ' ' = '['
      · rw [if_pos h2] at hp
        exact hacc p hp
      · rw [if_neg h2] at hp
        cases hkv : kv_parse (pyStrip l) with
        | some kv =>
          obtain ⟨run, rr⟩ := kv
          rw [hkv] at hp
          exact pm_go_keys rest _
            (@upsert_keys (fun k0 => ∃ r0, k0 = normKey r0) acc (normKey run) (pyStrip rr)
              hacc ⟨run, rfl⟩) p hp
        | none =>
          rw [hkv] at hp
          exact pm_go_keys rest acc hacc p hp

/-- The stop predicate of the metadata loop: the stripped line is non-empty
and starts with hash, bang or bracket. -/
def pmStops (l : Str) : Prop :=
  pyStrip l ≠ [] ∧ ((pyStrip l).headD ' ' = '#' ∨ (pyStrip l).headD ' ' = '!' ∨
    (pyStrip l).headD ' ' = '[')

instance (l : Str) : Decidable (pmStops l) := by
  unfold pmStops
  infer_instance

/-- Everything after the first stopping line is ignored by the metadata loop. -/
theorem pm_go_stops {stop : Str} (hstop : pmStops stop) :
    ∀ (pre t1 t2 : List Str) (acc : List (Str × Str)),
      pm_go (pre ++ stop :: t1) acc = pm_go (pre ++ stop :: t2) acc
  | [], t1, t2, acc => by
    show pm_go (stop :: t1) acc = pm_go (stop :: t2) acc
    unfold pm_go
    simp only [if_neg hstop.1, if_pos hstop.2]
  | l :: pre, t1, t2, acc => by
    show pm_go (l :: (pre ++ stop :: t1)) acc = pm_go (l :: (pre ++ stop :: t2)) acc
    unfold pm_go
    by_cases h1 : pyStrip l = []
    · simp only [if_pos h1]
      exact pm_go_stops hstop pre t1 t2 acc
    · by_cases h2 : (pyStrip l).headD ' ' = '#' ∨ (pyStrip l).headD ' ' = '!' ∨
          (pyStrip l).headD ' ' = '['
      · simp only [if_neg h1, if_pos h2]
      · simp only [if_neg h1, if_neg h2]
        cases hkv : kv_parse (pyStrip l) with
        | some kv =>
          obtain ⟨run, rr⟩ := kv
          simp only [hkv]
          exact pm_go_stops hstop pre t1 t2 _
        | none =>
          simp only [hkv]
          exact pm_go_stops hstop pre t1 t2 acc

/-- A non-empty, non-stopping, non-matching line is skipped without effect. -/
theorem pm_go_skip {l : Str} (h1 : pyStrip l ≠ []) (h2 : ¬ pmStops l)
    (h3 : kv_parse (pyStrip l) = none) (rest : List Str) (acc : List (Str × Str)) :
    pm_go (l :: rest) acc = pm_go rest acc := by
  conv_lhs => unfold pm_go
  rw [if_neg h1, if_neg (fun hh => h2 ⟨h1, hh⟩), h3]

/-- C5 (amended): the metadata extractor consumes "Key: value" lines after the
first heading, with each key lowercased and spaces replaced by underscores,
but it does not stop at the first non-matching line: it stops only at a
stripped line starting with hash, bang or bracket (ignoring everything after
it), and it silently skips any other non-matching line, so "Key: value" lines
occurring after such a skipped line still become entries. -/
theorem C5_theorem :
    (∀ (content : Str) (p : Str × Str), p ∈ parse_metadata content →
      ∃ run, p.1 = normKey run) ∧
    (∀ (stop : Str), pmStops stop → ∀ (pre t1 t2 : List Str) (acc : List (Str × Str)),
      pm_go (pre ++ stop :: t1) acc = pm_go (pre ++ stop :: t2) acc) ∧
    (∀ (l : Str), pyStrip l ≠ [] → ¬ pmStops l → kv_parse (pyStrip l) = none →
      ∀ (rest : List Str) (acc : List (Str × Str)),
        pm_go (l :: rest) acc = pm_go rest acc) := by
  refine ⟨?_, ?_, ?_⟩
  · intro content p hp
    exact pm_go_keys _ [] (by intro q hq; exact absurd hq (by simp)) p hp
  · intro stop hstop pre t1 t2 acc
    exact pm_go_stops hstop pre t1 t2 acc
  · intro l h1 h2 h3 rest acc
    exact pm_go_skip h1 h2 h3 rest acc

/-- C5 witness: the three amended facts at concrete inputs — a parsed entry's
key is a normalised run, a stopping line hides the tail, and a plain line is
skipped. -/
theorem C5_witness :
    (∃ run, "status".data = normKey run) ∧
    pm_go (["Status: Done".data] ++ "# next".data :: ["Author: Bob".data]) [] =
      pm_go (["Status: Done".data] ++ "# next".data :: []) [] ∧
    pm_go ("plain body line".data :: ["Author: Bob".data]) [] =
      pm_go ["Author: Bob".data] [] := by
  refine ⟨?_, ?_, ?_⟩
  · exact C5_theorem.1 "# T\nStatus: Done".data ("status".data, "Done".data) (by decide)
  · exact C5_theorem.2.1 "# next".data (by decide) ["Status: Done".data]
      ["Author: Bob".data] [] []
  · exact C5_theorem.2.2 "plain body line".data (by decide) (by decide) (by decide)
      ["Author: Bob".data] []

-- ============================================================
-- C7: collision-free image copying
-- ============================================================

/-- Value of a least-significant-first digit list. -/
def ofRevDigits : List Nat → Nat
  | [] => 0
  | d :: ds => d + 10 * ofRevDigits ds

/-- With enough fuel, the digit expansion is exact. -/
theorem ofRevDigits_toRevDigits : ∀ (fuel n : Nat), n ≤ fuel →
    ofRevDigits (toRevDigits fuel n) = n
  | 0, n, h => by
    have hn : n = 0 := Nat.le_zero.mp h
    subst hn
    rfl
  | fuel + 1, n, h => by
    unfold toRevDigits
    by_cases hn : n = 0
    · rw [if_pos hn, hn]
      rfl
    · rw [if_neg hn]
      unfold ofRevDigits
      have hdiv : n / 10 ≤ fuel := by
        have := Nat.div_lt_self (Nat.pos_of_ne_zero hn) (by omega : 1 < 10)
        omega
      rw [ofRevDigits_toRevDigits fuel (n / 10) hdiv]
      exact Nat.mod_add_div n 10

/-- Every produced digit is below ten. -/
theorem toRevDigits_lt : ∀ (fuel n : Nat), ∀ d ∈ toRevDigits fuel n, d < 10
  | 0, _, d, hd => absurd hd (by simp [toRevDigits])
  | fuel + 1, n, d, hd => by
    unfold toRevDigits at hd
    by_cases hn : n = 0
    · rw [if_pos hn] at hd
      exact absurd hd (by simp)
    · rw [if_neg hn] at hd
      rcases List.mem_cons.mp hd with h | h
      · subst h
        exact Nat.mod_lt n (by omega)
      · exact toRevDigits_lt fuel (n / 10) d h

/-- Digit characters are distinct for distinct digits. -/
theorem digitChar_inj_lt : ∀ d1 ∈ List.range 10, ∀ d2 ∈ List.range 10,
    digitChar d1 = digitChar d2 → d1 = d2 := by decide

/-- Mapping digit lists (all below ten) to characters is injective. -/
theorem map_digitChar_inj : ∀ (l1 l2 : List Nat), (∀ d ∈ l1, d < 10) → (∀ d ∈ l2, d < 10) →
    l1.map digitChar = l2.map digitChar → l1 = l2
  | [], [], _, _, _ => rfl
  | [], _ :: _, _, _, h => by simp at h
  | _ :: _, [], _, _, h => by simp at h
  | d1 :: t1, d2 :: t2, h1, h2, h => by
    simp only [List.map_cons, List.cons.injEq] at h
    have hd := digitChar_inj_lt d1 (List.mem_range.mpr (h1 d1 (List.mem_cons_self _ _)))
      d2 (List.mem_range.mpr (h2 d2 (List.mem_cons_self _ _))) h.1
    rw [hd, map_digitChar_inj t1 t2 (fun d hd' => h1 d (List.mem_cons_of_mem _ hd'))
      (fun d hd' => h2 d (List.mem_cons_of_mem _ hd')) h.2]

/-- The decimal writer never writes the empty string. -/
theorem natToDec_ne_nil (n : Nat) : natToDec n ≠ [] := by
  unfold natToDec
  by_cases hn : n = 0
  · rw [if_pos hn]
    simp
  · rw [if_neg hn]
    cases n with
    | zero => exact absurd rfl hn
    | succ k =>
      unfold toRevDigits
      rw [if_neg hn]
      simp

/-- The decimal writer is injective: the embedding of Python str on counters. -/
theorem natToDec_inj {m n : Nat} (h : natToDec m = natToDec n) : m = n := by
  unfold natToDec at h
  by_cases hm : m = 0 <;> by_cases hn : n = 0
  · rw [hm, hn]
  · rw [if_pos hm, if_neg hn] at h
    exfalso
    have hmap : (toRevDigits n n).map digitChar = [digitChar 0] := by
      have := congrArg List.reverse h
      simp only [List.reverse_reverse] at this
      rw [← this]
      rfl
    have h0 : toRevDigits n n = [0] :=
      map_digitChar_inj _ [0] (toRevDigits_lt n n) (by simp) hmap
    have := ofRevDigits_toRevDigits n n le_rfl
    rw [h0] at this
    exact hn (by simpa [ofRevDigits] using this.symm)
  · rw [if_neg hm, if_pos hn] at h
    exfalso
    have hmap : (toRevDigits m m).map digitChar = [digitChar 0] := by
      have := congrArg List.reverse h
      simp only [List.reverse_reverse] at this
      rw [this]
      rfl
    have h0 : toRevDigits m m = [0] :=
      map_digitChar_inj _ [0] (toRevDigits_lt m m) (by simp) hmap
    have := ofRevDigits_toRevDigits m m le_rfl
    rw [h0] at this
    exact hm (by simpa [ofRevDigits] using this.symm)
  · rw [if_neg hm, if_neg hn] at h
    have hrev := List.reverse_injective h
    have hmap := map_digitChar_inj _ _ (toRevDigits_lt m m) (toRevDigits_lt n n) hrev
    have h1 := ofRevDigits_toRevDigits m m le_rfl
    have h2 := ofRevDigits_toRevDigits n n le_rfl
    rw [hmap, h2] at h1
    exact h1.symm

/-- The candidate destination names are pairwise distinct. -/
theorem candName_inj (id8 base : Str) : ∀ {i j : Nat},
    candName id8 base i = candName id8 base j → i = j := by
  intro i j h
  match i, j with
  | 0, 0 => rfl
  | 0, j + 1 =>
    exfalso
    unfold candName at h
    have h1 := List.append_cancel_left h
    simp only [List.cons.injEq, true_and] at h1
    have h2 := congrArg List.length h1
    simp [List.length_append] at h2
    omega
  | i + 1, 0 =>
    exfalso
    unfold candName at h
    have h1 := List.append_cancel_left h
    simp only [List.cons.injEq, true_and] at h1
    have h2 := congrArg List.length h1
    simp [List.length_append] at h2
    omega
  | i + 1, j + 1 =>
    unfold candName at h
    have h1 := List.append_cancel_left h
    simp only [List.cons.injEq, true_and] at h1
    have h2 := List.append_cancel_right h1
    have h3 := natToDec_inj h2
    omega

/-- Among the first length-plus-two candidates, one is not in the directory. -/
theorem exists_fresh (fs : List Str) (id8 base : Str) :
    ∃ k, k < fs.length + 2 ∧ candName id8 base k ∉ fs := by
  by_contra hcon
  push_neg at hcon
  have hnd : ((List.range (fs.length + 2)).map (candName id8 base)).Nodup :=
    List.Nodup.map (fun a b hab => candName_inj id8 base hab) (List.nodup_range _)
  have hsub : (List.range (fs.length + 2)).map (candName id8 base) ⊆ fs := by
    intro x hx
    obtain ⟨k, hk, hkx⟩ := List.mem_map.mp hx
    rw [← hkx]
    exact hcon k (List.mem_range.mp hk)
  have hle := (hnd.subperm hsub).length_le
  simp at hle

/-- If some candidate within fuel range is fresh, the chosen name is fresh. -/
theorem firstFresh_not_mem (fs : List Str) (cand : Nat → Str) :
    ∀ (fuel c : Nat), (∃ k, k < fuel ∧ cand (c + k) ∉ fs) →
      firstFresh fs cand c fuel ∉ fs
  | 0, c, h => by
    obtain ⟨k, hk, _⟩ := h
    omega
  | fuel + 1, c, h => by
    unfold firstFresh
    by_cases hc : cand c ∈ fs
    · rw [if_pos hc]
      obtain ⟨k, hk, hx⟩ := h
      have hk0 : k ≠ 0 := by
        intro h0
        subst h0
        exact hx (by simpa using hc)
      refine firstFresh_not_mem fs cand fuel (c + 1) ⟨k - 1, by omega, ?_⟩
      have harith : c + 1 + (k - 1) = c + k := by omega
      rw [harith]
      exact hx
    · rw [if_neg hc]
      exact hc

/-- The name chosen by one copy never collides with an existing file. -/
theorem copy_one_not_mem (fs : List Str) (id8 base : Str) : copy_one fs id8 base ∉ fs := by
  unfold copy_one
  obtain ⟨k, hk, hx⟩ := exists_fresh fs id8 base
  exact firstFresh_not_mem fs _ (fs.length + 2) 0 ⟨k, hk, by simpa using hx⟩

/-- Inner copy loop: the directory only grows, by pairwise-distinct names
none of which collides with a file present when the loop started. -/
theorem copy_imgs_list_spec (fsrc : List Str) (id8 : Str) :
    ∀ (imgs fs : List Str) (m : List (Str × Str)),
      ∃ created, (copy_imgs_list fsrc id8 imgs fs m).1 = created ++ fs ∧
        created.Nodup ∧ ∀ n ∈ created, n ∉ fs
  | [], fs, m => ⟨[], rfl, List.nodup_nil, by simp⟩
  | img :: rest, fs, m => by
    unfold copy_imgs_list
    by_cases hmem : img ∈ fsrc
    · rw [if_pos hmem]
      obtain ⟨created, heq, hnd, hfresh⟩ :=
        copy_imgs_list_spec fsrc id8 rest (copy_one fs id8 (afterLast '/' img) :: fs)
          (upsert m img (copy_one fs id8 (afterLast '/' img)))
      refine ⟨created ++ [copy_one fs id8 (afterLast '/' img)], ?_, ?_, ?_⟩
      · rw [heq]
        simp
      · rw [List.nodup_append]
        refine ⟨hnd, List.nodup_singleton _, ?_⟩
        intro x hx hx1
        have := hfresh x hx
        simp at hx1
        rw [hx1] at this
        exact this (List.mem_cons_self _ _)
      · intro n hn
        rcases List.mem_append.mp hn with h1 | h1
        · intro hnfs
          exact hfresh n h1 (List.mem_cons_of_mem _ hnfs)
        · simp at h1
          rw [h1]
          exact copy_one_not_mem fs id8 (afterLast '/' img)
    · rw [if_neg hmem]
      exact copy_imgs_list_spec fsrc id8 rest fs m

/-- Outer copy loop: same invariant across all items. -/
theorem copy_images_go_spec (fsrc : List Str) :
    ∀ (items : List ContentItem) (fs : List Str) (m : List (Str × Str)),
      ∃ created, (copy_images_go fsrc items fs m).1 = created ++ fs ∧
        created.Nodup ∧ ∀ n ∈ created, n ∉ fs
  | [], fs, m => ⟨[], rfl, List.nodup_nil, by simp⟩
  | it :: items, fs, m => by
    unfold copy_images_go
    obtain ⟨c1, h1, hnd1, hf1⟩ :=
      copy_imgs_list_spec fsrc (it.notion_id.take 8) it.images fs m
    rw [h1]
    obtain ⟨c2, h2, hnd2, hf2⟩ :=
      copy_images_go_spec fsrc items (c1 ++ fs)
        (copy_imgs_list fsrc (it.notion_id.take 8) it.images fs m).2
    refine ⟨c2 ++ c1, ?_, ?_, ?_⟩
    · rw [h2]
      simp
    · rw [List.nodup_append]
      refine ⟨hnd2, hnd1, ?_⟩
      intro x hx hx1
      exact hf2 x hx (List.mem_append.mpr (Or.inl hx1))
    · intro n hn
      rcases List.mem_append.mp hn with hcase | hcase
      · intro hnfs
        exact hf2 n hcase (List.mem_append.mpr (Or.inr hnfs))
      · exact hf1 n hcase

/-- C7: a copy never overwrites an existing file — for every source
filesystem, item list, and initial flat-directory contents, the final
directory is the initial one extended by pairwise-distinct new names, none
colliding with a pre-existing file; and on the concrete collision scenario
(two distinct sources with the same basename under one identifier) the
numeric disambiguator is inserted between the identifier prefix and the
basename, leaving both files on disk. -/
theorem C7_theorem :
    (∀ (fsrc : List Str) (items : List ContentItem) (fs0 : List Str),
      ∃ created, (copy_images fsrc items fs0).1 = created ++ fs0 ∧
        created.Nodup ∧ ∀ n ∈ created, n ∉ fs0) ∧
    (copy_images ["d1/x.png".data, "d2/x.png".data]
        [{ notion_id := "aaaaaaaabb".data, title := "T".data,
           images := ["d1/x.png".data, "d2/x.png".data] }] []).1 =
      ["aaaaaaaa_1_x.png".data, "aaaaaaaa_x.png".data] :=
  ⟨fun fsrc items fs0 => copy_images_go_spec fsrc items fs0 [], by decide⟩

-- ============================================================
-- C8: status translation in the record mappers
-- ============================================================

/-- Provenance of the fields built by import_documents: every emitted field
comes from a mapping entry, and a field from the status entry carries a
successfully translated status value. -/
theorem build_fields_go_keys (imgmap : AssetMap) (record : List (Str × Str)) :
    ∀ (fm : List (Str × Str)) (p : Str × Str), p ∈ build_fields_go imgmap record fm →
      ∃ e ∈ fm, p.1 = e.2 ∧ (e.1 = "status".data →
        ∃ mv, statusMapGet STATUS_MAPPING_full (clean_value (recordGet record e.1)) = some mv ∧
          p.2 = mv)
  | [], p, hp => absurd hp (by simp [build_fields_go])
  | (jk, ak) :: rest, p, hp => by
    unfold build_fields_go at hp
    by_cases hv : recordGet record jk = []
    · rw [if_pos hv] at hp
      obtain ⟨e, he, hrest⟩ := build_fields_go_keys imgmap record rest p hp
      exact ⟨e, List.mem_cons_of_mem _ he, hrest⟩
    · rw [if_neg hv] at hp
      by_cases hjk : jk = "status".data
      · rw [if_pos hjk] at hp
        cases hkv : statusMapGet STATUS_MAPPING_full (clean_value (recordGet record jk)) with
        | none =>
          rw [hkv] at hp
          obtain ⟨e, he, hrest⟩ := build_fields_go_keys imgmap record rest p hp
          exact ⟨e, List.mem_cons_of_mem _ he, hrest⟩
        | some mv =>
          rw [hkv] at hp
          rcases List.mem_cons.mp hp with hhead | htail
          · refine ⟨(jk, ak), List.mem_cons_self _ _, ?_, ?_⟩
            · rw [hhead]
            · intro _
              exact ⟨mv, hkv, by rw [hhead]⟩
          · obtain ⟨e, he, hrest⟩ := build_fields_go_keys imgmap record rest p htail
            exact ⟨e, List.mem_cons_of_mem _ he, hrest⟩
      · rw [if_neg hjk] at hp
        by_cases hck : jk = "content".data
        · rw [if_pos hck] at hp
          rcases List.mem_cons.mp hp with hhead | htail
          · exact ⟨(jk, ak), List.mem_cons_self _ _, by rw [hhead], fun hs => absurd hs hjk⟩
          · obtain ⟨e, he, hrest⟩ := build_fields_go_keys imgmap record rest p htail
            exact ⟨e, List.mem_cons_of_mem _ he, hrest⟩
        · rw [if_neg hck] at hp
          rcases List.mem_cons.mp hp with hhead | htail
          · exact ⟨(jk, ak), List.mem_cons_self _ _, by rw [hhead], fun hs => absurd hs hjk⟩
          · obtain ⟨e, he, hrest⟩ := build_fields_go_keys imgmap record rest p htail
            exact ⟨e, List.mem_cons_of_mem _ he, hrest⟩

/-- A record whose cleaned status translates to some value emits the status
field with that value. -/
theorem build_fields_go_status_mem (imgmap : AssetMap) (record : List (Str × Str)) :
    ∀ (fm : List (Str × Str)),
      ("status".data, "Status".data) ∈ fm →
      recordGet record "status".data ≠ [] →
      ∀ mv, statusMapGet STATUS_MAPPING_full
          (clean_value (recordGet record "status".data)) = some mv →
      ("Status".data, mv) ∈ build_fields_go imgmap record fm
  | [], hmem, _, _, _ => absurd hmem (by simp)
  | (jk, ak) :: rest, hmem, hne, mv, hmv => by
    unfold build_fields_go
    rcases List.mem_cons.mp hmem with hhead | htail
    · obtain ⟨hjk, hak⟩ := Prod.mk.injEq .. ▸ hhead
      subst hjk
      subst hak
      rw [if_neg hne, if_pos rfl, hmv]
      exact List.mem_cons_self _ _
    · have IH := build_fields_go_status_mem imgmap record rest htail hne mv hmv
      by_cases hv : recordGet record jk = []
      · rw [if_pos hv]
        exact IH
      · rw [if_neg hv]
        by_cases hjk : jk = "status".data
        · rw [if_pos hjk]
          cases hkv : statusMapGet STATUS_MAPPING_full (clean_value (recordGet record jk)) with
          | none => exact IH
          | some mv2 => exact List.mem_cons_of_mem _ IH
        · rw [if_neg hjk]
          by_cases hck : jk = "content".data
          · rw [if_pos hck]
            exact List.mem_cons_of_mem _ IH
          · rw [if_neg hck]
            exact List.mem_cons_of_mem _ IH

/-- Provenance of the fields built by map_record. -/
theorem map_record_go_keys (record : List (Str × Str)) :
    ∀ (fm : List (Str × Str)) (p : Str × Str), p ∈ map_record_go record fm →
      ∃ e ∈ fm, p.1 = e.2 ∧ (e.1 = "status".data →
        ∃ mv, statusMapGet STATUS_MAPPING_ita (clean_value (recordGet record e.1)) = some mv ∧
          p.2 = mv)
  | [], p, hp => absurd hp (by simp [map_record_go])
  | (jk, ak) :: rest, p, hp => by
    unfold map_record_go at hp
    by_cases hv : recordGet record jk = []
    · rw [if_pos hv] at hp
      obtain ⟨e, he, hrest⟩ := map_record_go_keys record rest p hp
      exact ⟨e, List.mem_cons_of_mem _ he, hrest⟩
    · rw [if_neg hv] at hp
      by_cases hjk : jk = "status".data
      · rw [if_pos hjk] at hp
        cases hkv : statusMapGet STATUS_MAPPING_ita (clean_value (recordGet record jk)) with
        | none =>
          rw [hkv] at hp
          obtain ⟨e, he, hrest⟩ := map_record_go_keys record rest p hp
          exact ⟨e, List.mem_cons_of_mem _ he, hrest⟩
        | some mv =>
          rw [hkv] at hp
          rcases List.mem_cons.mp hp with hhead | htail
          · refine ⟨(jk, ak), List.mem_cons_self _ _, by rw [hhead], ?_⟩
            intro _
            exact ⟨mv, hkv, by rw [hhead]⟩
          · obtain ⟨e, he, hrest⟩ := map_record_go_keys record rest p htail
            exact ⟨e, List.mem_cons_of_mem _ he, hrest⟩
      · rw [if_neg hjk] at hp
        rcases List.mem_cons.mp hp with hhead | htail
        · exact ⟨(jk, ak), List.mem_cons_self _ _, by rw [hhead], fun hs => absurd hs hjk⟩
        · obtain ⟨e, he, hrest⟩ := map_record_go_keys record rest p htail
          exact ⟨e, List.mem_cons_of_mem _ he, hrest⟩

/-- C8: in both record mappers a source status absent from the translation
table (the empty status included, via the empty-value skip and the "" entry
mapped to none) leaves the destination Status field entirely out of the built
field set, and this is no error; and in the full-import mapper, whose
configured table contains the "Imported" entry, a record whose cleaned status
is "Imported" gets destination status "Inbox". -/
theorem C8_theorem :
    (∀ (imgmap : AssetMap) (record : List (Str × Str)),
      statusMapGet STATUS_MAPPING_full (clean_value (recordGet record "status".data)) = none →
      ∀ p ∈ build_fields imgmap record, p.1 ≠ "Status".data) ∧
    (∀ (imgmap : AssetMap) (record : List (Str × Str)),
      clean_value (recordGet record "status".data) = "Imported".data →
      ("Status".data, "Inbox".data) ∈ build_fields imgmap record) ∧
    (∀ (record : List (Str × Str)) (pid : Option Str),
      statusMapGet STATUS_MAPPING_ita (clean_value (recordGet record "status".data)) = none →
      ∀ p ∈ map_record record pid, p.1 ≠ "Status".data) := by
  refine ⟨?_, ?_, ?_⟩
  · intro imgmap record hnone p hp heq
    obtain ⟨e, he, hk, hs⟩ := build_fields_go_keys imgmap record FIELD_MAPPING_full p hp
    simp only [FIELD_MAPPING_full, List.mem_cons, List.not_mem_nil, or_false] at he
    rcases he with he | he | he | he | he | he <;> rw [he] at hk hs
    · exact absurd (heq ▸ hk) (by decide)
    · exact absurd (heq ▸ hk) (by decide)
    · obtain ⟨mv, hmv, _⟩ := hs rfl
      rw [hnone] at hmv
      exact absurd hmv (by simp)
    · exact absurd (heq ▸ hk) (by decide)
    · exact absurd (heq ▸ hk) (by decide)
    · exact absurd (heq ▸ hk) (by decide)
  · intro imgmap record himp
    have hne : recordGet record "status".data ≠ [] := by
      intro h0
      rw [h0] at himp
      exact absurd himp (by decide)
    have hmv : statusMapGet STATUS_MAPPING_full
        (clean_value (recordGet record "status".data)) = some ("Inbox".data) := by
      rw [himp]
      decide
    exact build_fields_go_status_mem imgmap record FIELD_MAPPING_full (by decide) hne
      ("Inbox".data) hmv
  · intro record pid hnone p hp heq
    have hp2 : p ∈ map_record_go record FIELD_MAPPING_ita ∨ p.1 = "PROJECT".data := by
      unfold map_record at hp
      cases pid with
      | none => exact Or.inl hp
      | some pv =>
        have hp' : p ∈ (if pv ≠ [] then
            map_record_go record FIELD_MAPPING_ita ++ [("PROJECT".data, pv)]
          else map_record_go record FIELD_MAPPING_ita) := hp
        by_cases hpv : pv ≠ []
        · rw [if_pos hpv] at hp'
          rcases List.mem_append.mp hp' with h1 | h1
          · exact Or.inl h1
          · simp at h1
            exact Or.inr (by rw [h1])
        · rw [if_neg hpv] at hp'
          exact Or.inl hp'
    rcases hp2 with hp2 | hp2
    · obtain ⟨e, he, hk, hs⟩ := map_record_go_keys record FIELD_MAPPING_ita p hp2
      simp only [FIELD_MAPPING_ita, List.mem_cons, List.not_mem_nil, or_false] at he
      rcases he with he | he | he | he | he | he <;> rw [he] at hk hs
      · exact absurd (heq ▸ hk) (by decide)
      · exact absurd (heq ▸ hk) (by decide)
      · obtain ⟨mv, hmv, _⟩ := hs rfl
        rw [hnone] at hmv
        exact absurd hmv (by simp)
      · exact absurd (heq ▸ hk) (by decide)
      · exact absurd (heq ▸ hk) (by decide)
      · exact absurd (heq ▸ hk) (by decide)
    · rw [heq] at hp2
      exact absurd hp2 (by decide)

/-- C8 witness: the omission and the Imported translation at concrete
records — an untranslatable status and an empty status are both omitted, and
an "Imported" status becomes "Inbox". -/
theorem C8_witness :
    (∀ p ∈ build_fields [] [("title".data, "T".data), ("status".data, "Odd".data)],
      p.1 ≠ "Status".data) ∧
    ("Status".data, "Inbox".data) ∈
      build_fields [] [("title".data, "T".data), ("status".data, "Imported".data)] ∧
    (∀ p ∈ map_record [("title".data, "T".data)] (some ("p1".data)),
      p.1 ≠ "Status".data) := by
  refine ⟨?_, ?_, ?_⟩
  · exact C8_theorem.1 [] [("title".data, "T".data), ("status".data, "Odd".data)] (by decide)
  · exact C8_theorem.2.1 [] [("title".data, "T".data), ("status".data, "Imported".data)]
      (by decide)
  · exact C8_theorem.2.2 [("title".data, "T".data)] (some ("p1".data)) (by decide)

-- ============================================================
-- Scanner lemmas for C9 and C10
-- ============================================================

/-- takeWhile walks through a fully satisfying prefix. -/
theorem takeWhile_append_all {p : Char → Bool} :
    ∀ (xs ys : Str), (∀ x ∈ xs, p x = true) →
      (xs ++ ys).takeWhile p = xs ++ ys.takeWhile p
  | [], _, _ => rfl
  | x :: xs, ys, h => by
    rw [List.cons_append, List.takeWhile_cons_of_pos (h x (List.mem_cons_self _ _)),
      takeWhile_append_all xs ys (fun y hy => h y (List.mem_cons_of_mem _ hy)),
      List.cons_append]

/-- dropWhile walks through a fully satisfying prefix. -/
theorem dropWhile_append_all {p : Char → Bool} :
    ∀ (xs ys : Str), (∀ x ∈ xs, p x = true) →
      (xs ++ ys).dropWhile p = ys.dropWhile p
  | [], _, _ => rfl
  | x :: xs, ys, h => by
    rw [List.cons_append, List.dropWhile_cons_of_pos (h x (List.mem_cons_self _ _)),
      dropWhile_append_all xs ys (fun y hy => h y (List.mem_cons_of_mem _ hy))]

/-- takeWhile stops exactly at the first failing character. -/
theorem takeWhile_append_stop {p : Char → Bool} (xs : Str) (y : Char) (ys : Str)
    (h : ∀ x ∈ xs, p x = true) (hy : p y = false) :
    (xs ++ y :: ys).takeWhile p = xs := by
  rw [takeWhile_append_all xs (y :: ys) h, List.takeWhile_cons_of_neg (by simp [hy]),
    List.append_nil]

/-- dropWhile stops exactly at the first failing character. -/
theorem dropWhile_append_stop {p : Char → Bool} (xs : Str) (y : Char) (ys : Str)
    (h : ∀ x ∈ xs, p x = true) (hy : p y = false) :
    (xs ++ y :: ys).dropWhile p = y :: ys := by
  rw [dropWhile_append_all xs (y :: ys) h, List.dropWhile_cons_of_neg (by simp [hy])]

/-- Characters of a list avoiding c satisfy the keep-scanning predicate. -/
theorem ne_pred_of_not_mem {c : Char} {l : Str} (h : c ∉ l) :
    ∀ x ∈ l, (decide (x ≠ c)) = true := by
  intro x hx
  simp only [decide_eq_true_eq]
  intro heq
  rw [heq] at hx
  exact h hx

/-- A scan position not starting with a bang never matches the double-bracket pattern. -/
theorem try_obsidian_none_of_head {c : Char} (t : Str) (hc : c ≠ '!') :
    try_obsidian (c :: t) = none := by
  match t with
  | [] => rfl
  | [_] => rfl
  | c2 :: c3 :: t' =>
    simp only [try_obsidian]
    rw [if_neg (fun hh => hc hh.1)]

/-- A scan position not starting with a bang never matches the bracketed-path pattern. -/
theorem try_markdown_none_of_head {c : Char} (t : Str) (hc : c ≠ '!') :
    try_markdown (c :: t) = none := by
  match t with
  | [] => rfl
  | c2 :: t' =>
    simp only [try_markdown]
    rw [if_neg (fun hh => hc hh.1)]

theorem sub_obsidian_go_nil (m : AssetMap) : ∀ fuel, sub_obsidian_go m fuel [] = []
  | 0 => rfl
  | _ + 1 => rfl

theorem sub_markdown_go_nil (m : AssetMap) : ∀ fuel, sub_markdown_go m fuel [] = []
  | 0 => rfl
  | _ + 1 => rfl

/-- The double-bracket pass is the identity on text that matches nowhere:
no match at the head and no bang beyond the head. -/
theorem sub_obsidian_go_eq_self (m : AssetMap) :
    ∀ (fuel : Nat) (l : Str), try_obsidian l = none → (∀ c ∈ l.tail, c ≠ '!') →
      sub_obsidian_go m fuel l = l
  | 0, _, _, _ => rfl
  | _ + 1, [], _, _ => rfl
  | fuel + 1, c :: rest, hnone, htail => by
    unfold sub_obsidian_go
    rw [hnone]
    show c :: sub_obsidian_go m fuel rest = c :: rest
    have hrec : try_obsidian rest = none := by
      cases rest with
      | nil => rfl
      | cons c2 t2 => exact try_obsidian_none_of_head t2 (htail c2 (List.mem_cons_self _ _))
    rw [sub_obsidian_go_eq_self m fuel rest hrec
      (fun c2 hc2 => htail c2 (List.mem_of_mem_tail hc2))]

/-- The bracketed-path pass is the identity under the same conditions. -/
theorem sub_markdown_go_eq_self (m : AssetMap) :
    ∀ (fuel : Nat) (l : Str), try_markdown l = none → (∀ c ∈ l.tail, c ≠ '!') →
      sub_markdown_go m fuel l = l
  | 0, _, _, _ => rfl
  | _ + 1, [], _, _ => rfl
  | fuel + 1, c :: rest, hnone, htail => by
    unfold sub_markdown_go
    rw [hnone]
    show c :: sub_markdown_go m fuel rest = c :: rest
    have hrec : try_markdown rest = none := by
      cases rest with
      | nil => rfl
      | cons c2 t2 => exact try_markdown_none_of_head t2 (htail c2 (List.mem_cons_self _ _))
    rw [sub_markdown_go_eq_self m fuel rest hrec
      (fun c2 hc2 => htail c2 (List.mem_of_mem_tail hc2))]

/-- A successful head match makes the scan emit the replacement and resume. -/
theorem sub_obsidian_go_cons_some (m : AssetMap) (fuel : Nat) {c : Char} {rest g r : Str}
    (h : try_obsidian (c :: rest) = some (g, r)) :
    sub_obsidian_go m (fuel + 1) (c :: rest) =
      replace_obsidian m g ++ sub_obsidian_go m fuel r := by
  simp only [sub_obsidian_go, h]

/-- The empty needle is a substring of everything (Python `"" in s`). -/
theorem isSubstring_nil : ∀ (hay : Str), isSubstring [] hay = true
  | [] => rfl
  | _ :: _ => rfl

/-- Any string headed by the asset prefix trips the negative lookahead. -/
theorem startsWithAssetColon_cons (w : Str) :
    startsWithAssetColon ('a' :: 's' :: 's' :: 'e' :: 't' :: ':' :: w) = true := by
  unfold startsWithAssetColon pyLower
  simp only [List.map_cons]
  rw [show Char.toLower 'a' = 'a' from by decide, show Char.toLower 's' = 's' from by decide,
    show Char.toLower 'e' = 'e' from by decide, show Char.toLower 't' = 't' from by decide,
    show Char.toLower ':' = ':' from by decide]
  simp [List.isPrefixOf]

/-- Text produced by the asset-pointer rewrite never matches the
bracketed-path pattern again: the lookahead rejects the asset prefix. -/
theorem try_markdown_asset_out (z : Str) :
    try_markdown ('!' :: '[' :: ']' :: '(' :: 'a' :: 's' :: 's' :: 'e' :: 't' :: ':' :: z) =
      none := by
  show mdAfterBracket (']' :: '(' :: 'a' :: 's' :: 's' :: 'e' :: 't' :: ':' :: z) = none
  unfold mdAfterBracket
  rw [List.dropWhile_cons_of_neg (by decide)]
  rw [if_pos ⟨by rw [List.length_cons, List.length_cons]; omega, rfl, rfl⟩]
  rw [List.takeWhile_cons_of_neg (by decide)]
  show mdAfterParen [] ('a' :: 's' :: 's' :: 'e' :: 't' :: ':' :: z) = none
  unfold mdAfterParen
  have hdwq : (('a' :: 's' :: 's' :: 'e' :: 't' :: ':' :: z : Str)).dropWhile (· ≠ ')') =
      z.dropWhile (· ≠ ')') := by
    rw [List.dropWhile_cons_of_pos (by decide), List.dropWhile_cons_of_pos (by decide),
      List.dropWhile_cons_of_pos (by decide), List.dropWhile_cons_of_pos (by decide),
      List.dropWhile_cons_of_pos (by decide), List.dropWhile_cons_of_pos (by decide)]
  have hq : (('a' :: 's' :: 's' :: 'e' :: 't' :: ':' :: z : Str)).takeWhile (· ≠ ')') =
      'a' :: 's' :: 's' :: 'e' :: 't' :: ':' :: z.takeWhile (· ≠ ')') := by
    rw [List.takeWhile_cons_of_pos (by decide), List.takeWhile_cons_of_pos (by decide),
      List.takeWhile_cons_of_pos (by decide), List.takeWhile_cons_of_pos (by decide),
      List.takeWhile_cons_of_pos (by decide), List.takeWhile_cons_of_pos (by decide)]
  have hmp : md_path_ok ('a' :: 's' :: 's' :: 'e' :: 't' :: ':' :: z.takeWhile (· ≠ ')')) =
      false := by
    unfold md_path_ok
    rw [startsWithAssetColon_cons]
    simp
  rw [hdwq, hq, hmp]
  exact if_neg (by simp)

/-- A standalone bracketed token never matches the double-bracket pattern
when alt and path are bracket-free. -/
theorem try_obsidian_token (alt path : Str) (halt : ']' ∉ alt) :
    try_obsidian ('!' :: '[' :: (alt ++ ']' :: '(' :: (path ++ [')']))) = none := by
  cases alt with
  | nil => rfl
  | cons a0 alt' =>
    have halt' : ']' ∉ alt' := fun hmem => halt (List.mem_cons_of_mem _ hmem)
    by_cases ha0 : a0 = '['
    · subst ha0
      show obsAfterBrackets (alt' ++ ']' :: '(' :: (path ++ [')'])) = none
      unfold obsAfterBrackets
      have hdw : (alt' ++ ']' :: '(' :: (path ++ [')'])).dropWhile (· ≠ ']') =
          ']' :: '(' :: (path ++ [')']) :=
        dropWhile_append_stop alt' ']' _ (ne_pred_of_not_mem halt') (by decide)
      rw [hdw]
      exact if_neg (by rintro ⟨-, -, hh, -⟩; simp at hh)
    · simp only [List.cons_append]
      simp only [try_obsidian]
      exact if_neg (by rintro ⟨-, -, hh⟩; exact ha0 hh)

/-- A standalone bracketed token with a rejected path never matches the
bracketed-path pattern. -/
theorem try_markdown_token (alt path : Str) (halt : ']' ∉ alt) (hpath : ')' ∉ path)
    (hok : md_path_ok path = false) :
    try_markdown ('!' :: '[' :: (alt ++ ']' :: '(' :: (path ++ [')']))) = none := by
  show mdAfterBracket (alt ++ ']' :: '(' :: (path ++ [')'])) = none
  unfold mdAfterBracket
  have hdw : (alt ++ ']' :: '(' :: (path ++ [')'])).dropWhile (· ≠ ']') =
      ']' :: '(' :: (path ++ [')']) :=
    dropWhile_append_stop alt ']' _ (ne_pred_of_not_mem halt) (by decide)
  have htw : (alt ++ ']' :: '(' :: (path ++ [')'])).takeWhile (· ≠ ']') = alt :=
    takeWhile_append_stop alt ']' _ (ne_pred_of_not_mem halt) (by decide)
  rw [hdw, htw]
  rw [if_pos ⟨by rw [List.length_cons, List.length_cons]; omega, rfl, rfl⟩]
  show mdAfterParen alt (path ++ [')']) = none
  unfold mdAfterParen
  have hdw2 : (path ++ [')']).dropWhile (· ≠ ')') = ')' :: [] :=
    dropWhile_append_stop path ')' [] (ne_pred_of_not_mem hpath) (by decide)
  have htw2 : (path ++ [')']).takeWhile (· ≠ ')') = path :=
    takeWhile_append_stop path ')' [] (ne_pred_of_not_mem hpath) (by decide)
  rw [hdw2, htw2, hok]
  exact if_neg (by simp)

-- ============================================================
-- C9: the empty extension-stripped name and the substring fallback
-- ============================================================

/-- On a mapping with no key lowercasing to ".png", the matcher falls all the
way through to the substring fallback, which accepts the first entry because
the empty extension-stripped name is a substring of everything. -/
theorem find_asset_match_dotpng (k0 r a : Str) (rest : AssetMap)
    (hkeys : ∀ e ∈ (k0, (r, a)) :: rest, pyLower e.1 ≠ ".png".data) :
    find_asset_match ((k0, (r, a)) :: rest) ".png".data = some (r, a) := by
  have hstrip : pyStrip ".png".data = ".png".data := by decide
  have hlow : pyLower ".png".data = ".png".data := by decide
  have hafter : afterLast '/' ".png".data = ".png".data := by decide
  have hfb : pyLower (beforeLast '.' (pyStrip ".png".data)) = [] := by decide
  have h1 : ((k0, (r, a)) :: rest).find? (fun e => e.1 = pyStrip ".png".data) = none := by
    rw [List.find?_eq_none]
    intro e he
    simp only [hstrip, decide_eq_true_eq]
    intro heq
    exact hkeys e he (by rw [heq]; decide)
  have h2 : ((k0, (r, a)) :: rest).find?
      (fun e => pyLower e.1 = pyLower (pyStrip ".png".data)) = none := by
    rw [List.find?_eq_none]
    intro e he
    simp only [hstrip, hlow, decide_eq_true_eq]
    exact hkeys e he
  have h3 : ((k0, (r, a)) :: rest).find?
      (fun e => e.1 = afterLast '/' (pyStrip ".png".data)) = none := by
    rw [List.find?_eq_none]
    intro e he
    simp only [hstrip, hafter, decide_eq_true_eq]
    intro heq
    exact hkeys e he (by rw [heq]; decide)
  have h4 : ((k0, (r, a)) :: rest).find?
      (fun e => pyLower e.1 = pyLower (afterLast '/' (pyStrip ".png".data))) = none := by
    rw [List.find?_eq_none]
    intro e he
    simp only [hstrip, hafter, hlow, decide_eq_true_eq]
    exact hkeys e he
  have h5 : ((k0, (r, a)) :: rest).find? (fun e =>
      isSubstring (pyLower (beforeLast '.' (pyStrip ".png".data)))
        (pyLower (beforeLast '.' e.1)) ||
      isSubstring (pyLower (beforeLast '.' e.1))
        (pyLower (beforeLast '.' (pyStrip ".png".data)))) = some (k0, (r, a)) := by
    apply List.find?_cons_of_pos
    rw [hfb, isSubstring_nil]
    rfl
  unfold find_asset_match
  rw [h1, h2, h3, h4, h5]

/-- C9 (amended): for every non-empty asset mapping none of whose keys
lowercases to ".png" (so the exact, case-insensitive and basename rules all
fail) and whose first entry carries non-empty, bang-free identifiers, the
reference ![[.png]] falls through to the substring-containment fallback,
matches the first entry in iteration order, and is rewritten to that
arbitrary asset. -/
theorem C9_theorem (k0 r a : Str) (rest : AssetMap)
    (hkeys : ∀ e ∈ (k0, (r, a)) :: rest, pyLower e.1 ≠ ".png".data)
    (hr : r ≠ []) (ha : a ≠ []) (hbr : '!' ∉ r) (hba : '!' ∉ a) :
    replace_image_references "![[.png]]".data ((k0, (r, a)) :: rest) =
      '!' :: '[' :: ']' :: '(' :: 'a' :: 's' :: 's' :: 'e' :: 't' :: ':' ::
        (r ++ ':' :: a ++ [')']) := by
  have hfind := find_asset_match_dotpng k0 r a rest hkeys
  have hrepl : replace_obsidian ((k0, (r, a)) :: rest) ".png".data =
      '!' :: '[' :: ']' :: '(' :: 'a' :: 's' :: 's' :: 'e' :: 't' :: ':' ::
        (r ++ ':' :: a ++ [')']) := by
    unfold replace_obsidian
    rw [show obsFilename ".png".data = ".png".data from by decide, hfind]
    show (if r ≠ [] ∧ a ≠ [] then
        '!' :: '[' :: (beforeLast '.' ".png".data ++
          ']' :: '(' :: 'a' :: 's' :: 's' :: 'e' :: 't' :: ':' :: (r ++ ':' :: a ++ [')']))
      else '!' :: '[' :: '[' :: (".png".data ++ [']', ']'])) =
      '!' :: '[' :: ']' :: '(' :: 'a' :: 's' :: 's' :: 'e' :: 't' :: ':' ::
        (r ++ ':' :: a ++ [')'])
    rw [if_pos ⟨hr, ha⟩, show beforeLast '.' ".png".data = [] from by decide]
    rfl
  have ht : try_obsidian ('!' :: "[[.png]]".data) = some (".png".data, []) := by decide
  have hp1 : sub_obsidian_go ((k0, (r, a)) :: rest) ("![[.png]]".data.length)
      "![[.png]]".data =
      replace_obsidian ((k0, (r, a)) :: rest) ".png".data := by
    show sub_obsidian_go ((k0, (r, a)) :: rest) 9 ('!' :: "[[.png]]".data) = _
    rw [sub_obsidian_go_cons_some _ 8 ht, sub_obsidian_go_nil, List.append_nil]
  have hmd : try_markdown ('!' :: '[' :: ']' :: '(' :: 'a' :: 's' :: 's' :: 'e' :: 't' ::
      ':' :: (r ++ ':' :: a ++ [')'])) = none := try_markdown_asset_out _
  have htail : ∀ c ∈ ('[' :: ']' :: '(' :: 'a' :: 's' :: 's' :: 'e' :: 't' :: ':' ::
      (r ++ ':' :: a ++ [')'])), c ≠ '!' := by
    intro c hc heq
    subst heq
    simp only [List.mem_cons, List.mem_append, List.mem_singleton, List.not_mem_nil,
      or_false, false_or, or_assoc] at hc
    rcases hc with h|h|h|h|h|h|h|h|h|h|h|h|h <;>
      first
        | (exact absurd h (by decide))
        | (exact hbr h)
        | (exact hba h)
  unfold replace_image_references
  rw [hp1, hrepl]
  exact sub_markdown_go_eq_self _ _ _ hmd htail

/-- C9 witness: the amended statement at a concrete mapping — the second key
"y.png" does not lowercase to ".png", and ![[.png]] is rewritten to the first
entry's asset pointer. -/
theorem C9_witness :
    replace_image_references "![[.png]]".data
      [("x.png".data, ("r1".data, "a1".data)), ("y.png".data, ("r2".data, "a2".data))] =
      '!' :: '[' :: ']' :: '(' :: 'a' :: 's' :: 's' :: 'e' :: 't' :: ':' ::
        ("r1".data ++ ':' :: "a1".data ++ [')']) :=
  C9_theorem "x.png".data "r1".data "a1".data [("y.png".data, ("r2".data, "a2".data))]
    (by decide) (by decide) (by decide) (by decide) (by decide)

-- ============================================================
-- C10: what the bracketed-path pass can and cannot touch
-- ============================================================

/-- Soundness of the bracketed-path matcher: a captured path always has one of
the five image extensions (case-insensitively, with a non-empty stem) and
never carries the asset prefix. -/
theorem try_markdown_sound :
    ∀ (l alt q r : Str), try_markdown l = some (alt, q, r) →
      hasValidImageExt q = true ∧ startsWithAssetColon q = false := by
  intro l alt q r h
  match l with
  | [] => exact absurd h (by simp [try_markdown])
  | [c] => exact absurd h (by simp [try_markdown])
  | c1 :: c2 :: t =>
    simp only [try_markdown] at h
    by_cases h12 : c1 = '!' ∧ c2 = '['
    · rw [if_pos h12] at h
      unfold mdAfterBracket at h
      split at h
      · unfold mdAfterParen at h
        split at h
        · rename_i hcond
          have hq : ((t.dropWhile (· ≠ ']')).drop 2).takeWhile (· ≠ ')') = q := by
            have h0 := Option.some.inj h
            exact congrArg (fun x => x.2.1) h0
          rw [hq] at hcond
          have hok := hcond.2.2
          simp only [md_path_ok, Bool.and_eq_true, Bool.not_eq_true'] at hok
          exact hok
        · exact absurd h (by simp)
      · exact absurd h (by simp)
    · rw [if_neg h12] at h
      exact absurd h (by simp)

/-- C10 (amended): the import-phase bracketed-path pass matches only tokens
whose path ends in one of the five image extensions case-insensitively (with a
non-empty stem) and does not begin with "asset:" case-insensitively; and a
bracketed-path reference whose path fails that filter, standing alone as the
whole body (alt free of ']' and '!', path free of ']', ')' and '!'), is left
byte-for-byte unchanged by the whole rewriter. -/
theorem C10_theorem :
    (∀ (l alt q r : Str), try_markdown l = some (alt, q, r) →
      hasValidImageExt q = true ∧ startsWithAssetColon q = false) ∧
    (∀ (alt path : Str) (m : AssetMap),
      ']' ∉ alt → '!' ∉ alt → ']' ∉ path → ')' ∉ path → '!' ∉ path →
      md_path_ok path = false →
      replace_image_references ('!' :: '[' :: (alt ++ ']' :: '(' :: (path ++ [')']))) m =
        '!' :: '[' :: (alt ++ ']' :: '(' :: (path ++ [')']))) := by
  refine ⟨try_markdown_sound, ?_⟩
  intro alt path m h1 h2 h3 h4 h5 hok
  have htail : ∀ c ∈ ('[' :: (alt ++ ']' :: '(' :: (path ++ [')']))), c ≠ '!' := by
    intro c hc heq
    subst heq
    simp only [List.mem_cons, List.mem_append, List.mem_singleton, List.not_mem_nil,
      or_false, false_or, or_assoc] at hc
    rcases hc with h|h|h|h|h|h <;>
      first
        | (exact absurd h (by decide))
        | (exact h2 h)
        | (exact h5 h)
  have hobs := try_obsidian_token alt path h1
  have hmd := try_markdown_token alt path h1 h4 hok
  unfold replace_image_references
  rw [sub_obsidian_go_eq_self m _ _ hobs htail]
  exact sub_markdown_go_eq_self m _ _ hmd htail

/-- C10 witness: both parts at concrete inputs — a concrete successful match
(a valid .png token) satisfies the filter, and a standalone .pdf token body is
left unchanged by the rewriter. -/
theorem C10_witness :
    (hasValidImageExt "doc.png".data = true ∧
      startsWithAssetColon "doc.png".data = false) ∧
    replace_image_references
        ('!' :: '[' :: ("pic".data ++ ']' :: '(' :: ("doc.pdf".data ++ [')'])))
        [("doc.png".data, ("r".data, "t".data))] =
      '!' :: '[' :: ("pic".data ++ ']' :: '(' :: ("doc.pdf".data ++ [')'])) := by
  constructor
  · exact C10_theorem.1 "![pic](doc.png)".data "pic".data "doc.png".data []
      (by decide)
  · exact C10_theorem.2 "pic".data "doc.pdf".data [("doc.png".data, ("r".data, "t".data))]
      (by decide) (by decide) (by decide) (by decide) (by decide) (by decide)

end NotionPipeline
